import Mathlib

/-! Box System: grid packing and session state machine.

A shallow embedding of `src/Box_System.c` and a verification of its
specification.

Modelling conventions.

* C `int` values are Lean `Int`.  For object dimensions of at least
  `-2 ^ 31 + 6`, which includes every dimension the wizard can produce, no
  expression of the program leaves the 32-bit range, so no wrap-around is
  modelled for `int`.  The `uint32_t` timestamps are `Nat` with explicit
  reduction modulo `2 ^ 32`.
* The globals `led_matrix`, `led_colors` and `current_color_index` are the
  fields of `State`, passed explicitly.
* A loop counter that starts at `0` and is only incremented is a `Nat`; the
  loop bounds stay `Int`, so a negative bound gives an empty loop.
* An array access outside its bounds has no value: every function that indexes
  an array returns an `Option`, and `none` is that fault.
* The peripherals are observed through the list of calls made to them.
-/

namespace BoxSystem

/-! ## Data model -/

/-- The macro `MATRIX_SIZE`. -/
abbrev MATRIX_SIZE : Nat := 5

/-- The macro `BUTTON_PIN_A`. -/
abbrev BUTTON_PIN_A : Nat := 5

/-- The macro `BUTTON_PIN_B`. -/
abbrev BUTTON_PIN_B : Nat := 6

/-- The struct `Color`. -/
structure Color where
  r : Int
  g : Int
  b : Int
deriving DecidableEq, Repr

/-- The struct `Object`. -/
structure Object where
  width : Int
  height : Int
deriving DecidableEq, Repr

/-- A `MATRIX_SIZE` by `MATRIX_SIZE` C array, row index first. -/
abbrev Grid (α : Type) := Fin 5 → Fin 5 → α

/-- The globals read and written by the placement engine and the renderer. -/
@[ext]
structure State where
  led_matrix : Grid Int
  led_colors : Grid Color
  current_color_index : Int

/-- The global table `colors[6][3]`. -/
def colors : List (List Int) :=
  [[32, 32, 32], [32, 0, 0], [0, 32, 0], [0, 0, 32], [32, 0, 32], [0, 32, 32]]

/-- The program's initial grid and palette index: every cell is `0`, every
colour is `(0, 0, 0)`, the index is `0`. -/
def initState : State :=
  { led_matrix := fun _ _ => 0
    led_colors := fun _ _ => ⟨0, 0, 0⟩
    current_color_index := 0 }

/-! ## Array access -/

/-- Reading `m[x][y]`; `none` outside the array. -/
def readCell {α : Type} (m : Grid α) (x y : Nat) : Option α :=
  if h : x < 5 ∧ y < 5 then some (m ⟨x, h.1⟩ ⟨y, h.2⟩) else none

/-- Writing `m[x][y] = v`; `none` outside the array. -/
def writeCell {α : Type} (m : Grid α) (x y : Nat) (v : α) : Option (Grid α) :=
  if x < 5 ∧ y < 5 then some (fun a b => if a.val = x ∧ b.val = y then v else m a b)
  else none

/-- Reading `colors[idx][c]`; `none` outside the table. -/
def readColors (idx : Int) (c : Nat) : Option Int :=
  if 0 ≤ idx then
    match colors.get? idx.toNat with
    | none => none
    | some row => row.get? c
  else none

/-! ## Loops -/

/-- The counter values of `for (int i = 0; i < bound; ++i)`. -/
def ltRange (bound : Int) : List Nat := List.range bound.toNat

/-- The counter values of `for (int i = 0; i <= bound; ++i)`. -/
def leRange (bound : Int) : List Nat := List.range (bound + 1).toNat

/-- A `for` loop whose body can `return`: the body yields `none` on a fault,
`some (some r)` when it returns `r` from the enclosing function and
`some none` when it falls through to the next iteration. -/
def forReturn {ρ : Type} (body : Nat → Option (Option ρ)) : List Nat → Option (Option ρ)
  | [] => some none
  | i :: rest =>
    match body i with
    | none => none
    | some (some r) => some (some r)
    | some none => forReturn body rest

/-- A `for` loop whose body updates the state `σ` and never returns early. -/
def forEach {σ : Type} (body : Nat → σ → Option σ) : List Nat → σ → Option σ
  | [], s => some s
  | i :: rest, s =>
    match body i s with
    | none => none
    | some s' => forEach body rest s'

/-- The statement after a loop that may have returned: the loop's own return
value if it returned, the value `d` of the trailing `return d;` otherwise. -/
def returnAfter {ρ : Type} (d : ρ) : Option (Option ρ) → Option ρ
  | none => none
  | some (some r) => some r
  | some none => some d

/-! ## Placement engine -/

/-- The body of the inner loop of `isSpaceAvailable`:
`if (led_matrix[x + k][y + l] != 0) return 0;`. -/
def isSpaceAvailable.body (led_matrix : Grid Int) (x y k l : Nat) : Option (Option Int) :=
  match readCell led_matrix (x + k) (y + l) with
  | none => none
  | some v => if v ≠ 0 then some (some 0) else some none

/-- The function `isSpaceAvailable`: `0` as soon as a cell of the rectangle is
non-zero, `1` when the scan ends. -/
def isSpaceAvailable (led_matrix : Grid Int) (x y : Nat) (obj : Object) : Option Int :=
  returnAfter 1
    (forReturn (fun k =>
      forReturn (fun l => isSpaceAvailable.body led_matrix x y k l) (ltRange obj.width))
    (ltRange obj.height))

/-- The body of the inner marking loop of `placeObjectInMatrix`:
`led_matrix[i + k][j + l] = 1;` and the three stores into
`led_colors[i + k][j + l]`. -/
def markCell (i j : Nat) (r g b : Int) (k l : Nat) (s : State) : Option State :=
  match writeCell s.led_matrix (i + k) (j + l) 1 with
  | none => none
  | some m =>
    match writeCell s.led_colors (i + k) (j + l) ⟨r, g, b⟩ with
    | none => none
    | some c => some { s with led_matrix := m, led_colors := c }

/-- The two nested loops of `placeObjectInMatrix` that mark the rectangle
anchored at `(i, j)` and store the colour `(r, g, b)` in each of its cells. -/
def markObject (s : State) (i j : Nat) (obj : Object) (r g b : Int) : Option State :=
  forEach (fun k s1 => forEach (fun l s2 => markCell i j r g b k l s2) (ltRange obj.width) s1)
    (ltRange obj.height) s

/-- The body of the scan of `placeObjectInMatrix` at the anchor `(i, j)`:
when `isSpaceAvailable(i, j, obj)` is non-zero, mark the object and
`return 1;`. -/
def tryAnchor (s : State) (obj : Object) (r g b : Int) (i j : Nat) :
    Option (Option (Int × State)) :=
  match isSpaceAvailable s.led_matrix i j obj with
  | none => none
  | some v =>
    if v ≠ 0 then
      match markObject s i j obj r g b with
      | none => none
      | some s' => some (some (1, s'))
    else some none

/-- The function `placeObjectInMatrix`: the returned `int` and the globals
after the call. -/
def placeObjectInMatrix (s : State) (obj : Object) : Option (Int × State) :=
  match readColors s.current_color_index 0, readColors s.current_color_index 1,
      readColors s.current_color_index 2 with
  | some r, some g, some b =>
    returnAfter (0, s)
      (forReturn (fun i =>
        forReturn (fun j => tryAnchor s obj r g b i j) (leRange (MATRIX_SIZE - obj.width)))
      (leRange (MATRIX_SIZE - obj.height)))
  | _, _, _ => none

/-- The function `changeObjectColor`; `%` on C `int` truncates towards zero. -/
def changeObjectColor (s : State) : State :=
  { s with current_color_index := Int.tmod (s.current_color_index + 1) 5 }

/-- The Place step of `main`: `placeObjectInMatrix(obj)` and, only when it
returned non-zero, `changeObjectColor()`.  The display calls of the step do not
touch these globals and are left out. -/
def placeStep (s : State) (obj : Object) : Option (Int × State) :=
  match placeObjectInMatrix s obj with
  | none => none
  | some (ret, s') => if ret ≠ 0 then some (ret, changeObjectColor s') else some (ret, s')

/-- The body of the inner loop of `isMatrixFull`:
`if (led_matrix[i][j] == 0) return 0;`. -/
def isMatrixFull.body (led_matrix : Grid Int) (i j : Nat) : Option (Option Int) :=
  match readCell led_matrix i j with
  | none => none
  | some v => if v = 0 then some (some 0) else some none

/-- The function `isMatrixFull`. -/
def isMatrixFull (led_matrix : Grid Int) : Option Int :=
  returnAfter 1
    (forReturn (fun i =>
      forReturn (fun j => isMatrixFull.body led_matrix i j) (ltRange MATRIX_SIZE))
    (ltRange MATRIX_SIZE))

/-! ## Serpentine renderer -/

/-- A call to the pixel-strip library `neopixel.c`. -/
inductive NpCall where
  | npSetPixelColor (index : Int) (r g b : Int)
  | npWrite
deriving DecidableEq, Repr

/-- The body of the inner loop of `updateNeoPixelDisplay` at the logical cell
`(i, j)`: compute `led_index`, then set that pixel to the stored colour when
`led_matrix[i][j] == 1` and to `(0, 0, 0)` otherwise.  `calls` is the list of
library calls made so far. -/
def updateNeoPixelDisplay.body (s : State) (i j : Nat) (calls : List NpCall) :
    Option (List NpCall) :=
  let led_index : Int :=
    if i % 2 = 0 then (4 - (i : Int)) * MATRIX_SIZE + (4 - (j : Int))
    else (4 - (i : Int)) * MATRIX_SIZE + (j : Int)
  match readCell s.led_matrix i j with
  | none => none
  | some v =>
    if v = 1 then
      match readCell s.led_colors i j with
      | none => none
      | some c => some (calls ++ [NpCall.npSetPixelColor led_index c.r c.g c.b])
    else some (calls ++ [NpCall.npSetPixelColor led_index 0 0 0])

/-- The function `updateNeoPixelDisplay`: the library calls it makes, in order. -/
def updateNeoPixelDisplay (s : State) : Option (List NpCall) :=
  match
    forEach (fun i calls =>
      forEach (fun j calls2 => updateNeoPixelDisplay.body s i j calls2) (ltRange MATRIX_SIZE)
        calls)
    (ltRange MATRIX_SIZE) []
  with
  | none => none
  | some calls => some (calls ++ [NpCall.npWrite])

/-! ## Debounce counter and dimension wizard -/

/-- The globals `click_count`, `last_interrupt_time_A` and
`last_interrupt_time_B`. -/
structure Buttons where
  click_count : Int
  last_interrupt_time_A : Nat
  last_interrupt_time_B : Nat
deriving DecidableEq, Repr

/-- The initialisers of the three globals: `click_count = 0` and both
timestamps `0`. -/
def initButtons : Buttons :=
  { click_count := 0, last_interrupt_time_A := 0, last_interrupt_time_B := 0 }

/-- The statement pair `click_count++; if (click_count > 5) click_count = 1;`,
which the source has in `button_callback`, in the width loop of `main` and in
`selectHeight`. -/
def clickIncrement (click_count : Int) : Int :=
  let c := click_count + 1
  if c > 5 then 1 else c

/-- The function `button_callback`, called with the pin `gpio` at the time
`interrupt_time` (milliseconds since boot, `uint32_t`); the subtractions are
`uint32_t` subtractions. -/
def button_callback (gpio : Nat) (interrupt_time : Nat) (st : Buttons) : Buttons :=
  let st1 :=
    if gpio = BUTTON_PIN_A ∧
        (interrupt_time + 2 ^ 32 - st.last_interrupt_time_A) % 2 ^ 32 > 500 then
      { st with
        click_count := clickIncrement st.click_count
        last_interrupt_time_A := interrupt_time }
    else st
  if gpio = BUTTON_PIN_B ∧
      (interrupt_time + 2 ^ 32 - st1.last_interrupt_time_B) % 2 ^ 32 > 500 then
    { st1 with last_interrupt_time_B := interrupt_time }
  else st1

/-- What one iteration of a selection loop receives from its environment: the
interrupts `(gpio, interrupt_time)` handled since the previous iteration, in
order, and the two levels it reads, `a` for `gpio_get(BUTTON_PIN_A) == 0` and
`b` for `gpio_get(BUTTON_PIN_B) == 0`. -/
structure Poll where
  irqs : List (Nat × Nat)
  a : Bool
  b : Bool
deriving DecidableEq, Repr

/-- The handler runs to completion for each pending interrupt. -/
def handleIrqs (irqs : List (Nat × Nat)) (st : Buttons) : Buttons :=
  irqs.foldl (fun acc e => button_callback e.1 e.2 acc) st

/-- The width loop of `main` (`while (navigating) ...`): each iteration takes
one `Poll`; when button A reads low the current `click_count` is stored in
`obj.width` and the loop ends after the iteration, in which a low button B
still increments the counter.  The result is `obj.width`, the globals and the
polls not consumed; `none` when the polls end while still navigating. -/
def selectWidth : List Poll → Buttons → Option (Int × Buttons × List Poll)
  | [], _ => none
  | p :: rest, st =>
    let st1 := handleIrqs p.irqs st
    let width : Option Int := if p.a then some st1.click_count else none
    let st2 :=
      if p.b then { st1 with click_count := clickIncrement st1.click_count } else st1
    match width with
    | some w => some (w, st2, rest)
    | none => selectWidth rest st2

/-- The function `selectHeight`, with the same conventions as `selectWidth`;
the result is `obj.height`. -/
def selectHeight : List Poll → Buttons → Option (Int × Buttons × List Poll)
  | [], _ => none
  | p :: rest, st =>
    let st1 := handleIrqs p.irqs st
    let height : Option Int := if p.a then some st1.click_count else none
    let st2 :=
      if p.b then { st1 with click_count := clickIncrement st1.click_count } else st1
    match height with
    | some h => some (h, st2, rest)
    | none => selectHeight rest st2

/-- The dimension wizard of `main`: the width loop, then `selectHeight()`.  The
result is the global `obj` passed to `placeObjectInMatrix`. -/
def wizard (polls : List Poll) (st : Buttons) : Option (Object × Buttons × List Poll) :=
  match selectWidth polls st with
  | none => none
  | some (w, st1, rest) =>
    match selectHeight rest st1 with
    | none => none
    | some (h, st2, rest2) => some ({ width := w, height := h }, st2, rest2)

/-! ## Status display -/

/-- A call to the display library `ssd1306`, on the global `disp`. -/
inductive DisplayCall where
  | ssd1306_clear
  | ssd1306_draw_string (x y scale : Nat) (s : List Char)
  | ssd1306_show
deriving DecidableEq, Repr

/-- The two `static char [16]` buffers of `drawStringOnDisplay`, as the C
strings they hold (the characters before the terminating NUL, at most 15). -/
structure DisplayCache where
  last_str1 : List Char
  last_str2 : List Char
deriving DecidableEq, Repr

/-- The initialisers `""` of the two buffers. -/
def initDisplayCache : DisplayCache := { last_str1 := [], last_str2 := [] }

/-- The call `snprintf(buf, size, "%s", str)`: the C string left in `buf`,
which is `str` cut to `size - 1` characters. -/
def snprintfString (size : Nat) (str : List Char) : List Char := str.take (size - 1)

/-- The function `drawStringOnDisplay` on the C strings `str1` and `str2`: the
display calls it makes and the buffers after the call.  `strcmp(a, b) != 0` is
inequality of the two C strings. -/
def drawStringOnDisplay (str1 str2 : List Char) (cache : DisplayCache) :
    List DisplayCall × DisplayCache :=
  if str1 ≠ cache.last_str1 ∨ str2 ≠ cache.last_str2 then
    ([DisplayCall.ssd1306_clear,
      DisplayCall.ssd1306_draw_string 0 0 1 str1,
      DisplayCall.ssd1306_draw_string 0 10 1 str2,
      DisplayCall.ssd1306_show],
     { last_str1 := snprintfString 16 str1, last_str2 := snprintfString 16 str2 })
  else ([], cache)

/-! ## Vocabulary of the specification -/

/-- Cell `(a, b)` lies in the `obj.height` by `obj.width` rectangle anchored
at row `i`, column `j`. -/
def inRect (i j : Nat) (obj : Object) (a b : Fin 5) : Prop :=
  i ≤ a.val ∧ (a.val : Int) < i + obj.height ∧ j ≤ b.val ∧ (b.val : Int) < j + obj.width

instance (i j : Nat) (obj : Object) (a b : Fin 5) : Decidable (inRect i j obj a b) := by
  unfold inRect
  infer_instance

/-- The anchor `(i, j)` keeps the rectangle of `obj` inside the grid:
`0 <= i <= 5 - height` and `0 <= j <= 5 - width`. -/
def anchorInBounds (obj : Object) (i j : Nat) : Prop :=
  (i : Int) ≤ 5 - obj.height ∧ (j : Int) ≤ 5 - obj.width

instance (obj : Object) (i j : Nat) : Decidable (anchorInBounds obj i j) := by
  unfold anchorInBounds
  infer_instance

/-- Every cell of the rectangle of `obj` anchored at `(i, j)` is unoccupied. -/
def rectFree (m : Grid Int) (i j : Nat) (obj : Object) : Prop :=
  ∀ a b : Fin 5, inRect i j obj a b → m a b = 0

instance (m : Grid Int) (i j : Nat) (obj : Object) : Decidable (rectFree m i j obj) := by
  unfold rectFree
  infer_instance

/-- The object fits at `(i, j)`: the anchor is in bounds and the rectangle is
entirely unoccupied. -/
def fitsAt (m : Grid Int) (obj : Object) (i j : Nat) : Prop :=
  anchorInBounds obj i j ∧ rectFree m i j obj

instance (m : Grid Int) (obj : Object) (i j : Nat) : Decidable (fitsAt m obj i j) := by
  unfold fitsAt
  infer_instance

/-- The state in which the rectangle of `obj` anchored at `(i, j)` is occupied
and coloured `c`, and every other cell is as in `s`. -/
def markRect (s : State) (i j : Nat) (obj : Object) (c : Color) : State :=
  { led_matrix := fun a b => if inRect i j obj a b then 1 else s.led_matrix a b
    led_colors := fun a b => if inRect i j obj a b then c else s.led_colors a b
    current_color_index := s.current_color_index }

/-- The call that took `s` to `s'` placed `obj` at the anchor `(i, j)` with
colour `c`: the rectangle lies inside the grid and has `width * height` cells,
each of them was unoccupied in `s`, is occupied in `s'` and carries `c`, and
every cell outside the rectangle has the occupancy and colour it had in `s`. -/
def placedAt (s s' : State) (obj : Object) (c : Color) (i j : Nat) : Prop :=
  (i : Int) + obj.height ≤ 5 ∧ (j : Int) + obj.width ≤ 5 ∧
  ((Finset.univ.filter (fun p : Fin 5 × Fin 5 => inRect i j obj p.1 p.2)).card : Int) =
    obj.width * obj.height ∧
  (∀ a b, inRect i j obj a b →
    s.led_matrix a b = 0 ∧ s'.led_matrix a b ≠ 0 ∧ s'.led_colors a b = c) ∧
  (∀ a b, ¬ inRect i j obj a b →
    s'.led_matrix a b = s.led_matrix a b ∧ s'.led_colors a b = s.led_colors a b)

/-- A grid whose rows `0` and `1` are occupied and white, with palette index `1`. -/
def twoRowsState : State :=
  { led_matrix := fun a _ => if a.val < 2 then 1 else 0
    led_colors := fun a _ => if a.val < 2 then ⟨32, 32, 32⟩ else ⟨0, 0, 0⟩
    current_color_index := 1 }

/-- A grid with every cell occupied and white, with palette index `1`. -/
def fullState : State :=
  { led_matrix := fun _ _ => 1
    led_colors := fun _ _ => ⟨32, 32, 32⟩
    current_color_index := 1 }

/-- The state in which the cells of rows `i, ..., i + h - 1` and columns
`j, ..., j + w - 1` are occupied and coloured `c`, and every other cell is as
in `s`. -/
def markSpan (s : State) (i h j w : Nat) (c : Color) : State :=
  { led_matrix := fun a b =>
      if i ≤ a.val ∧ a.val < i + h ∧ j ≤ b.val ∧ b.val < j + w then 1 else s.led_matrix a b
    led_colors := fun a b =>
      if i ≤ a.val ∧ a.val < i + h ∧ j ≤ b.val ∧ b.val < j + w then c else s.led_colors a b
    current_color_index := s.current_color_index }

/-- The palette entry `colors[idx]` as a colour, when `idx` indexes the table. -/
def paletteColor (idx : Int) : Option Color :=
  match readColors idx 0, readColors idx 1, readColors idx 2 with
  | some r, some g, some b => some ⟨r, g, b⟩
  | _, _, _ => none

/-- A run of Place steps over the objects `objs`, observed through the colours
`colors[current_color_index]` of the steps that returned non-zero, in order. -/
def usedColors : State → List Object → Option (List Color)
  | _, [] => some []
  | s, obj :: rest =>
    match paletteColor s.current_color_index, placeStep s obj with
    | some c, some (ret, s') =>
      match usedColors s' rest with
      | none => none
      | some cs => some (if ret ≠ 0 then c :: cs else cs)
    | _, _ => none

/-- The specification's physical LED index of the logical cell `(i, j)`:
`phys_row * 5 + phys_col` with `phys_row = 4 - i`, and `phys_col = 4 - j` when
`i` is even, `phys_col = j` when `i` is odd. -/
def physIndex (i j : Nat) : Int :=
  let phys_row : Int := 4 - (i : Int)
  let phys_col : Int := if i % 2 = 0 then 4 - (j : Int) else (j : Int)
  phys_row * 5 + phys_col

/-- The colour the specification has the renderer show for the cell `(a, b)`:
black when the cell is unoccupied, its stored colour when it is occupied. -/
def shownColor (s : State) (a b : Fin 5) : Color :=
  if s.led_matrix a b = 0 then ⟨0, 0, 0⟩ else s.led_colors a b

/-- The pixel index of a set-pixel call; a flush has none. -/
def NpCall.pixelIndex : NpCall → Option Int
  | NpCall.npSetPixelColor index _ _ _ => some index
  | NpCall.npWrite => none

/-- The set-pixel call that the body of `updateNeoPixelDisplay` makes at the
logical cell `(i, j)` of the grid, as read off the source (outside the grid
the body makes no call; the value there is a placeholder). -/
def renderedCall (s : State) (i j : Nat) : NpCall :=
  if h : i < 5 ∧ j < 5 then
    NpCall.npSetPixelColor
      (if i % 2 = 0 then (4 - (i : Int)) * 5 + (4 - (j : Int)) else (4 - (i : Int)) * 5 + j)
      (if s.led_matrix ⟨i, h.1⟩ ⟨j, h.2⟩ = 1 then s.led_colors ⟨i, h.1⟩ ⟨j, h.2⟩ else ⟨0, 0, 0⟩).r
      (if s.led_matrix ⟨i, h.1⟩ ⟨j, h.2⟩ = 1 then s.led_colors ⟨i, h.1⟩ ⟨j, h.2⟩ else ⟨0, 0, 0⟩).g
      (if s.led_matrix ⟨i, h.1⟩ ⟨j, h.2⟩ = 1 then s.led_colors ⟨i, h.1⟩ ⟨j, h.2⟩ else ⟨0, 0, 0⟩).b
  else NpCall.npWrite

/-- The LED index that `updateNeoPixelDisplay` computes for the logical cell
`(i, j)`: the index of the set-pixel call of iteration `(i, j)`, which is the
call number `5 * i + j` of the frame. -/
def ledIndexAt (s : State) (i j : Nat) : Option Int :=
  match updateNeoPixelDisplay s with
  | none => none
  | some calls =>
    match calls.get? (5 * i + j) with
    | none => none
    | some call => call.pixelIndex

/-- The states reachable from the program's initial state by Place steps. -/
inductive Reachable : State → Prop where
  | init : Reachable initState
  | step (s s' : State) (obj : Object) (ret : Int) :
      Reachable s → placeStep s obj = some (ret, s') → Reachable s'

/-- The `uint32_t` difference `now - last`: the milliseconds elapsed from the
time `last` to the time `now`, across a wrap of the 32-bit clock. -/
def elapsedMs (now last : Nat) : Nat := (now + 2 ^ 32 - last) % 2 ^ 32

/-- A placed rectangle: the anchor row, the anchor column and the object. -/
abbrev Rect := Nat × Nat × Object

/-- Cell `(a, b)` lies in the placed rectangle `r`. -/
def Rect.covers (r : Rect) (a b : Fin 5) : Prop := inRect r.1 r.2.1 r.2.2 a b

instance (r : Rect) (a b : Fin 5) : Decidable (r.covers a b) := by
  unfold Rect.covers
  infer_instance

/-- The placed rectangle `r` lies inside the grid. -/
def Rect.inGrid (r : Rect) : Prop :=
  (r.1 : Int) + r.2.2.height ≤ 5 ∧ (r.2.1 : Int) + r.2.2.width ≤ 5

instance (r : Rect) : Decidable r.inGrid := by
  unfold Rect.inGrid
  infer_instance

/-- Two placed rectangles have no cell in common. -/
def Rect.disjoint (r1 r2 : Rect) : Prop :=
  ∀ a b : Fin 5, ¬ (r1.covers a b ∧ r2.covers a b)

instance (r1 r2 : Rect) : Decidable (r1.disjoint r2) := by
  unfold Rect.disjoint
  infer_instance

/-- The values returned by `placeObjectInMatrix` when it is called on the
objects `objs` in order, starting in the state `s`. -/
def callReturns : State → List Object → Option (List Int)
  | _, [] => some []
  | s, obj :: rest =>
    match placeObjectInMatrix s obj with
    | none => none
    | some (ret, s') =>
      match callReturns s' rest with
      | none => none
      | some rets => some (ret :: rets)

/-- A sequence of `placeObjectInMatrix` calls on the objects `objs`, in order,
from the state `s` to the state `sf`, with the rectangles of the successful
placements in the order of the calls.  A call that returns `0` logs nothing;
a call that returns `1` logs the rectangle at which it is a placement.  Between
two calls the session may advance the palette index with
`changeObjectColor`. -/
inductive CallSeq : State → List Object → List Rect → State → Prop where
  | done (s : State) : CallSeq s [] [] s
  | recolor (s sf : State) (objs : List Object) (log : List Rect) :
      CallSeq (changeObjectColor s) objs log sf → CallSeq s objs log sf
  | rejected (s s' sf : State) (obj : Object) (objs : List Object) (log : List Rect) :
      placeObjectInMatrix s obj = some (0, s') → CallSeq s' objs log sf →
      CallSeq s (obj :: objs) log sf
  | placed (s s' sf : State) (obj : Object) (c : Color) (i j : Nat) (objs : List Object)
      (log : List Rect) :
      placeObjectInMatrix s obj = some (1, s') → placedAt s s' obj c i j →
      CallSeq s' objs log sf → CallSeq s (obj :: objs) ((i, j, obj) :: log) sf

/-! ## Loop lemmas -/

theorem forReturn_append {ρ : Type} (body : Nat → Option (Option ρ)) (xs ys : List Nat) :
    forReturn body (xs ++ ys) =
      match forReturn body xs with
      | some none => forReturn body ys
      | other => other := by
  induction xs with
  | nil => rfl
  | cons x xs ih =>
    simp only [List.cons_append, forReturn]
    rcases h : body x with _ | _ | r
    · rfl
    · simpa using ih
    · rfl

theorem forReturn_range_succ {ρ : Type} (body : Nat → Option (Option ρ)) (n : Nat) :
    forReturn body (List.range (n + 1)) =
      match forReturn body (List.range n) with
      | some none => (match body n with
        | none => none
        | some (some r) => some (some r)
        | some none => some none)
      | other => other := by
  rw [List.range_succ, forReturn_append]
  rcases forReturn body (List.range n) with _ | _ | r <;> simp only [forReturn]
  

/-- The outcome of a loop over `0, ..., n - 1` none of whose iterations faults:
either every iteration falls through, or the first one that returns decides. -/
theorem forReturn_range_cases {ρ : Type} (body : Nat → Option (Option ρ)) (n : Nat)
    (hnf : ∀ i, i < n → body i ≠ none) :
    (forReturn body (List.range n) = some none ∧ ∀ i, i < n → body i = some none) ∨
    (∃ i r, i < n ∧ (∀ i', i' < i → body i' = some none) ∧ body i = some (some r) ∧
      forReturn body (List.range n) = some (some r)) := by
  induction n with
  | zero => left; exact ⟨rfl, fun i hi => absurd hi (Nat.not_lt_zero i)⟩
  | succ n ih =>
    rw [forReturn_range_succ]
    rcases ih (fun i hi => hnf i (Nat.lt_succ_of_lt hi)) with ⟨hall, hpre⟩ | ⟨i, r, hi, hpre, hit, hres⟩
    · rw [hall]
      rcases hb : body n with _ | _ | r
      · exact absurd hb (hnf n (Nat.lt_succ_self n))
      · left
        refine ⟨rfl, fun i hi => ?_⟩
        rcases Nat.lt_succ_iff_lt_or_eq.mp hi with h | h
        · exact hpre i h
        · rw [h]; exact hb
      · right
        exact ⟨n, r, Nat.lt_succ_self n, hpre, hb, rfl⟩
    · right
      rw [hres]
      exact ⟨i, r, Nat.lt_succ_of_lt hi, hpre, hit, rfl⟩

theorem forEach_append {σ : Type} (body : Nat → σ → Option σ) (xs ys : List Nat) (s : σ) :
    forEach body (xs ++ ys) s =
      match forEach body xs s with
      | none => none
      | some s' => forEach body ys s' := by
  induction xs generalizing s with
  | nil => rfl
  | cons x xs ih =>
    simp only [List.cons_append, forEach]
    rcases body x s with _ | s'
    · rfl
    · simpa using ih s'

theorem forEach_range_succ {σ : Type} (body : Nat → σ → Option σ) (n : Nat) (s : σ) :
    forEach body (List.range (n + 1)) s =
      match forEach body (List.range n) s with
      | none => none
      | some s' => body n s' := by
  rw [List.range_succ, forEach_append]
  rcases forEach body (List.range n) s with _ | s'
  · rfl
  · simp only [forEach]
    rcases body n s' with _ | s'' <;> rfl


/-! ## Array access lemmas -/

theorem readCell_inBounds {α : Type} (m : Grid α) {x y : Nat} (hx : x < 5) (hy : y < 5) :
    readCell m x y = some (m ⟨x, hx⟩ ⟨y, hy⟩) := by
  simp [readCell, hx, hy]

theorem ltRange_eq (bound : Int) : ltRange bound = List.range bound.toNat := rfl

/-! ## The fit test -/

/-- One row of the fit test: the inner loop of `isSpaceAvailable` falls through
when the `n` cells from column `y` on are all zero and returns `0` otherwise. -/
theorem isSpaceAvailable_inner (m : Grid Int) (x y k n : Nat) (hr : x + k < 5)
    (hy : ∀ l, l < n → y + l < 5) :
    (forReturn (fun l => isSpaceAvailable.body m x y k l) (List.range n)
      = some none ∧ ∀ b : Fin 5, y ≤ b.val → b.val < y + n → m ⟨x + k, hr⟩ b = 0) ∨
    (forReturn (fun l => isSpaceAvailable.body m x y k l) (List.range n)
      = some (some 0) ∧ ∃ b : Fin 5, y ≤ b.val ∧ b.val < y + n ∧ m ⟨x + k, hr⟩ b ≠ 0) := by
  have hbody : ∀ l (hl : l < n),
      isSpaceAvailable.body m x y k l =
      if m ⟨x + k, hr⟩ ⟨y + l, hy l hl⟩ ≠ 0 then some (some (0 : Int)) else some none := by
    intro l hl
    simp only [isSpaceAvailable.body]
    rw [readCell_inBounds m hr (hy l hl)]
  rcases forReturn_range_cases (fun l => isSpaceAvailable.body m x y k l) n
      (by
        intro l hl
        simp only [hbody l hl]
        split <;> simp) with ⟨hres, hall⟩ | ⟨l, v, hl, _, hit, hres⟩
  · left
    refine ⟨hres, fun b hb1 hb2 => ?_⟩
    have h := hall (b.val - y) (by omega)
    simp only [hbody (b.val - y) (by omega)] at h
    by_contra hne
    have hne' : m ⟨x + k, hr⟩ ⟨y + (b.val - y), hy _ (by omega)⟩ ≠ 0 := by
      have : (⟨y + (b.val - y), hy _ (by omega)⟩ : Fin 5) = b := Fin.ext (by simp; omega)
      rw [this]; exact hne
    rw [if_pos hne'] at h
    simp at h
  · right
    simp only [hbody l hl] at hit
    by_cases hne : m ⟨x + k, hr⟩ ⟨y + l, hy l hl⟩ ≠ 0
    · rw [if_pos hne] at hit
      have hv : v = 0 := by
        injection hit with h1; injection h1 with h2; exact h2.symm
      rw [hres, hv]
      exact ⟨rfl, ⟨y + l, hy l hl⟩, by simp, by simp; omega, hne⟩
    · rw [if_neg hne] at hit
      simp at hit

/-- The fit test decides `rectFree` whenever the rectangle lies inside the grid. -/
theorem isSpaceAvailable_spec (m : Grid Int) (x y : Nat) (obj : Object)
    (hx : (x : Int) + obj.height ≤ 5) (hy : (y : Int) + obj.width ≤ 5) :
    isSpaceAvailable m x y obj = some (if rectFree m x y obj then 1 else 0) := by
  simp only [isSpaceAvailable, ltRange_eq]
  have hrow : ∀ k, k < obj.height.toNat → x + k < 5 := fun k hk => by omega
  have hcol : ∀ l, l < obj.width.toNat → y + l < 5 := fun l hl => by omega
  have hinner := fun k hk =>
    isSpaceAvailable_inner m x y k obj.width.toNat (hrow k hk) hcol
  rcases forReturn_range_cases (fun k =>
      forReturn (fun l => isSpaceAvailable.body m x y k l) (List.range obj.width.toNat)) obj.height.toNat
      (by
        intro k hk
        intro hc
        rcases hinner k hk with ⟨h, _⟩ | ⟨h, _⟩ <;>
          · exact absurd (h.symm.trans hc) (by simp)) with ⟨hres, hall⟩ | ⟨k, v, hk, _, hit, hres⟩
  · rw [hres]
    have hfree : rectFree m x y obj := by
      intro a b hab
      obtain ⟨h1, h2, h3, h4⟩ := hab
      have hk : a.val - x < obj.height.toNat := by omega
      rcases hinner (a.val - x) hk with ⟨_, h⟩ | ⟨h, _⟩
      · have := h b h3 (by omega)
        have ha : (⟨x + (a.val - x), hrow _ hk⟩ : Fin 5) = a := Fin.ext (by simp; omega)
        rwa [ha] at this
      · rw [hall (a.val - x) (by omega)] at h
        simp at h
    simp [hfree, returnAfter]
  · rw [hres]
    rcases hinner k hk with ⟨h, _⟩ | ⟨h, b, hb1, hb2, hne⟩
    · rw [hit] at h; simp at h
    · rw [hit] at h
      have hv : v = 0 := by
        injection h with h1; injection h1
      have hnfree : ¬ rectFree m x y obj := by
        intro hfree
        exact hne (hfree ⟨x + k, hrow k hk⟩ b ⟨by simp, by simp; omega, hb1, by omega⟩)
      simp [hnfree, hv, returnAfter]

/-! ## Marking the rectangle -/

theorem markCell_inBounds (i j : Nat) (r g b : Int) (k l : Nat) (s : State)
    (hk : i + k < 5) (hl : j + l < 5) :
    markCell i j r g b k l s = some (markSpan s (i + k) 1 (j + l) 1 ⟨r, g, b⟩) := by
  simp only [markCell, writeCell, hk, hl, and_self, if_true, markSpan, Option.some.injEq]
  ext a b
  · dsimp only
    by_cases h : a.val = i + k ∧ b.val = j + l
    · rw [if_pos h, if_pos (by omega)]
    · rw [if_neg h, if_neg (by omega)]
  · dsimp only
    by_cases h : a.val = i + k ∧ b.val = j + l
    · rw [if_pos h, if_pos (by omega)]
    · rw [if_neg h, if_neg (by omega)]
  · rfl

theorem markSpan_zero_width (s : State) (i h j : Nat) (c : Color) : markSpan s i h j 0 c = s := by
  ext a b
  · simp only [markSpan]; rw [if_neg (by omega)]
  · simp only [markSpan]; rw [if_neg (by omega)]
  · rfl

theorem markSpan_zero_height (s : State) (i j w : Nat) (c : Color) :
    markSpan s i 0 j w c = s := by
  ext a b
  · simp only [markSpan]; rw [if_neg (by omega)]
  · simp only [markSpan]; rw [if_neg (by omega)]
  · rfl

/-- Extending a marked row by the next cell. -/
theorem markSpan_snoc_col (s : State) (r j n : Nat) (c : Color) :
    markSpan (markSpan s r 1 j n c) r 1 (j + n) 1 c = markSpan s r 1 j (n + 1) c := by
  ext a b
  · simp only [markSpan]
    by_cases h1 : r ≤ a.val ∧ a.val < r + 1 ∧ j + n ≤ b.val ∧ b.val < j + n + 1
    · rw [if_pos h1, if_pos (by omega)]
    · rw [if_neg h1]
      by_cases h2 : r ≤ a.val ∧ a.val < r + 1 ∧ j ≤ b.val ∧ b.val < j + n
      · rw [if_pos h2, if_pos (by omega)]
      · rw [if_neg h2, if_neg (by omega)]
  · simp only [markSpan]
    by_cases h1 : r ≤ a.val ∧ a.val < r + 1 ∧ j + n ≤ b.val ∧ b.val < j + n + 1
    · rw [if_pos h1, if_pos (by omega)]
    · rw [if_neg h1]
      by_cases h2 : r ≤ a.val ∧ a.val < r + 1 ∧ j ≤ b.val ∧ b.val < j + n
      · rw [if_pos h2, if_pos (by omega)]
      · rw [if_neg h2, if_neg (by omega)]
  · rfl

/-- Extending a marked block by the next row. -/
theorem markSpan_snoc_row (s : State) (i k j w : Nat) (c : Color) :
    markSpan (markSpan s i k j w c) (i + k) 1 j w c = markSpan s i (k + 1) j w c := by
  ext a b
  · simp only [markSpan]
    by_cases h1 : i + k ≤ a.val ∧ a.val < i + k + 1 ∧ j ≤ b.val ∧ b.val < j + w
    · rw [if_pos h1, if_pos (by omega)]
    · rw [if_neg h1]
      by_cases h2 : i ≤ a.val ∧ a.val < i + k ∧ j ≤ b.val ∧ b.val < j + w
      · rw [if_pos h2, if_pos (by omega)]
      · rw [if_neg h2, if_neg (by omega)]
  · simp only [markSpan]
    by_cases h1 : i + k ≤ a.val ∧ a.val < i + k + 1 ∧ j ≤ b.val ∧ b.val < j + w
    · rw [if_pos h1, if_pos (by omega)]
    · rw [if_neg h1]
      by_cases h2 : i ≤ a.val ∧ a.val < i + k ∧ j ≤ b.val ∧ b.val < j + w
      · rw [if_pos h2, if_pos (by omega)]
      · rw [if_neg h2, if_neg (by omega)]
  · rfl

/-- The inner marking loop marks one row. -/
theorem markObject_inner (i j : Nat) (r g b : Int) (k n : Nat) (s : State)
    (hk : i + k < 5) (hn : ∀ l, l < n → j + l < 5) :
    forEach (fun l s2 => markCell i j r g b k l s2) (List.range n) s =
      some (markSpan s (i + k) 1 j n ⟨r, g, b⟩) := by
  induction n with
  | zero => rw [markSpan_zero_width]; rfl
  | succ n ih =>
    rw [forEach_range_succ, ih (fun l hl => hn l (Nat.lt_succ_of_lt hl))]
    simp only []
    rw [markCell_inBounds i j r g b k n _ hk (hn n (Nat.lt_succ_self n)), markSpan_snoc_col]

/-- The marking loops mark the whole block. -/
theorem markObject_span (s : State) (i j : Nat) (obj : Object) (r g b : Int)
    (hi : (i : Int) + obj.height ≤ 5) (hj : (j : Int) + obj.width ≤ 5) :
    markObject s i j obj r g b =
      some (markSpan s i obj.height.toNat j obj.width.toNat ⟨r, g, b⟩) := by
  simp only [markObject, ltRange_eq]
  have hcol : ∀ l, l < obj.width.toNat → j + l < 5 := fun l hl => by omega
  have hrow : ∀ k, k < obj.height.toNat → i + k < 5 := fun k hk => by omega
  generalize obj.height.toNat = h at hrow
  induction h with
  | zero => rw [markSpan_zero_height]; rfl
  | succ h ih =>
    rw [forEach_range_succ, ih (fun k hk => hrow k (Nat.lt_succ_of_lt hk))]
    simp only []
    rw [markObject_inner i j r g b h _ _ (hrow h (Nat.lt_succ_self h)) hcol, markSpan_snoc_row]

theorem markSpan_eq_markRect (s : State) (i j : Nat) (obj : Object) (c : Color) :
    markSpan s i obj.height.toNat j obj.width.toNat c = markRect s i j obj c := by
  ext a b
  · simp only [markSpan, markRect, inRect]
    by_cases h : i ≤ a.val ∧ a.val < i + obj.height.toNat ∧ j ≤ b.val ∧ b.val < j + obj.width.toNat
    · rw [if_pos h, if_pos (by omega)]
    · rw [if_neg h, if_neg (by omega)]
  · simp only [markSpan, markRect, inRect]
    by_cases h : i ≤ a.val ∧ a.val < i + obj.height.toNat ∧ j ≤ b.val ∧ b.val < j + obj.width.toNat
    · rw [if_pos h, if_pos (by omega)]
    · rw [if_neg h, if_neg (by omega)]
  · rfl

/-- The marking loops of `placeObjectInMatrix` never fault on a rectangle that
lies inside the grid, and produce `markRect`. -/
theorem markObject_spec (s : State) (i j : Nat) (obj : Object) (r g b : Int)
    (hi : (i : Int) + obj.height ≤ 5) (hj : (j : Int) + obj.width ≤ 5) :
    markObject s i j obj r g b = some (markRect s i j obj ⟨r, g, b⟩) := by
  rw [markObject_span s i j obj r g b hi hj, markSpan_eq_markRect]

/-! ## The first-fit scan -/

theorem leRange_eq (bound : Int) : leRange bound = List.range (bound + 1).toNat := rfl

/-- At an in-bounds anchor the scan body marks the object and returns `1`
exactly when the rectangle is free, and falls through otherwise. -/
theorem tryAnchor_spec (s : State) (obj : Object) (r g b : Int) (i j : Nat)
    (h : anchorInBounds obj i j) :
    tryAnchor s obj r g b i j =
      if rectFree s.led_matrix i j obj then some (some (1, markRect s i j obj ⟨r, g, b⟩))
      else some none := by
  obtain ⟨h1, h2⟩ := h
  have hi : (i : Int) + obj.height ≤ 5 := by omega
  have hj : (j : Int) + obj.width ≤ 5 := by omega
  simp only [tryAnchor, isSpaceAvailable_spec s.led_matrix i j obj hi hj,
    markObject_spec s i j obj r g b hi hj]
  by_cases hf : rectFree s.led_matrix i j obj
  · simp [hf]
  · simp [hf]

/-- The scan of one row of anchors. -/
theorem scanRow_cases (s : State) (obj : Object) (r g b : Int) (i : Nat)
    (hi : (i : Int) ≤ 5 - obj.height) :
    (forReturn (fun j => tryAnchor s obj r g b i j) (leRange (MATRIX_SIZE - obj.width)) = some none ∧
      ∀ j, ¬ fitsAt s.led_matrix obj i j) ∨
    (∃ j, fitsAt s.led_matrix obj i j ∧ (∀ j', j' < j → ¬ fitsAt s.led_matrix obj i j') ∧
      forReturn (fun j => tryAnchor s obj r g b i j) (leRange (MATRIX_SIZE - obj.width)) =
        some (some (1, markRect s i j obj ⟨r, g, b⟩))) := by
  rw [leRange_eq]
  have hb : ∀ j, j < ((MATRIX_SIZE : Int) - obj.width + 1).toNat → anchorInBounds obj i j :=
    fun j hj => ⟨hi, by simp only [MATRIX_SIZE] at hj; omega⟩
  rcases forReturn_range_cases (fun j => tryAnchor s obj r g b i j) _
      (by
        intro j hj
        simp only [tryAnchor_spec s obj r g b i j (hb j hj)]
        split <;> simp) with ⟨hres, hall⟩ | ⟨j, res, hj, hpre, hit, hres⟩
  · left
    refine ⟨hres, fun j hfit => ?_⟩
    have hj : j < ((MATRIX_SIZE : Int) - obj.width + 1).toNat := by
      have := hfit.1.2
      simp only [MATRIX_SIZE]; omega
    have := hall j hj
    simp only [tryAnchor_spec s obj r g b i j (hb j hj), if_pos hfit.2] at this
    cases this
  · right
    simp only [tryAnchor_spec s obj r g b i j (hb j hj)] at hit
    by_cases hf : rectFree s.led_matrix i j obj
    · rw [if_pos hf] at hit
      refine ⟨j, ⟨hb j hj, hf⟩, fun j' hj' hfit => ?_, ?_⟩
      · have := hpre j' hj'
        simp only [tryAnchor_spec s obj r g b i j' hfit.1, if_pos hfit.2] at this
        cases this
      · rw [hres, ← hit]
    · rw [if_neg hf] at hit
      cases hit

/-- The outcome of `placeObjectInMatrix`, for every object and every grid:
either no anchor fits and the call returns `0` leaving the globals as they
were, or the call returns `1` after marking the rectangle at the first fitting
anchor in row-major order. -/
theorem placeObjectInMatrix_cases (s : State) (obj : Object) (r g b : Int)
    (hr : readColors s.current_color_index 0 = some r)
    (hg : readColors s.current_color_index 1 = some g)
    (hb : readColors s.current_color_index 2 = some b) :
    (placeObjectInMatrix s obj = some (0, s) ∧ ∀ i j, ¬ fitsAt s.led_matrix obj i j) ∨
    (∃ i j, fitsAt s.led_matrix obj i j ∧
      (∀ i' j', fitsAt s.led_matrix obj i' j' → i < i' ∨ (i = i' ∧ j ≤ j')) ∧
      placeObjectInMatrix s obj = some (1, markRect s i j obj ⟨r, g, b⟩)) := by
  simp only [placeObjectInMatrix, hr, hg, hb, leRange_eq]
  have hbnd : ∀ i, i < ((MATRIX_SIZE : Int) - obj.height + 1).toNat → (i : Int) ≤ 5 - obj.height :=
    fun i hi => by simp only [MATRIX_SIZE] at hi; omega
  have hrow := fun i hi => scanRow_cases s obj r g b i (hbnd i hi)
  simp only [leRange_eq] at hrow
  rcases forReturn_range_cases (fun i =>
      forReturn (fun j => tryAnchor s obj r g b i j)
        (List.range ((MATRIX_SIZE : Int) - obj.width + 1).toNat)) _
      (by
        intro i hi hc
        rcases hrow i hi with ⟨h, _⟩ | ⟨_, _, _, h⟩ <;>
          · exact absurd (h.symm.trans hc) (by simp)) with
    ⟨hres, hall⟩ | ⟨i, res, hi, hpre, hit, hres⟩
  · left
    rw [hres]
    refine ⟨rfl, fun i j hfit => ?_⟩
    have hi : i < ((MATRIX_SIZE : Int) - obj.height + 1).toNat := by
      have := hfit.1.1
      simp only [MATRIX_SIZE]; omega
    rcases hrow i hi with ⟨_, h⟩ | ⟨_, _, _, h⟩
    · exact h j hfit
    · rw [hall i hi] at h
      cases h
  · right
    rw [hres]
    rcases hrow i hi with ⟨h, _⟩ | ⟨j, hfit, hleast, h⟩
    · exact absurd (h.symm.trans hit) (by simp)
    · refine ⟨i, j, hfit, fun i' j' hfit' => ?_, ?_⟩
      · rcases Nat.lt_trichotomy i i' with hlt | heq | hgt
        · exact Or.inl hlt
        · right
          refine ⟨heq, Nat.le_of_not_lt fun hlt => ?_⟩
          subst heq
          exact hleast j' hlt hfit'
        · exfalso
          rcases hrow i' (Nat.lt_trans hgt hi) with ⟨_, h'⟩ | ⟨_, _, _, h'⟩
          · exact h' j' hfit'
          · rw [hpre i' hgt] at h'
            cases h'
      · have : res = (1, markRect s i j obj ⟨r, g, b⟩) := by
          have := hit.symm.trans h
          injection this with h1
          injection h1
        rw [this]
        rfl

/-! ## The palette -/

/-- Every index into the table `colors` reads three components. -/
theorem readColors_inBounds (idx : Int) (h0 : 0 ≤ idx) (h6 : idx < 6) :
    ∃ r g b, readColors idx 0 = some r ∧ readColors idx 1 = some g ∧
      readColors idx 2 = some b ∧ paletteColor idx = some ⟨r, g, b⟩ := by
  interval_cases idx <;> exact ⟨_, _, _, rfl, rfl, rfl, rfl⟩

/-! ## Counting the cells of a rectangle -/

theorem card_span (i h : Nat) (hih : i + h ≤ 5) :
    (Finset.univ.filter (fun a : Fin 5 => i ≤ a.val ∧ a.val < i + h)).card = h := by
  have hi : i ≤ 5 := by omega
  have hh : h ≤ 5 := by omega
  interval_cases i <;> interval_cases h <;> first | rfl | omega

/-- A rectangle that lies inside the grid has `width * height` cells. -/
theorem card_inRect (i j : Nat) (obj : Object) (hh : 0 ≤ obj.height) (hw : 0 ≤ obj.width)
    (hi : (i : Int) + obj.height ≤ 5) (hj : (j : Int) + obj.width ≤ 5) :
    ((Finset.univ.filter (fun p : Fin 5 × Fin 5 => inRect i j obj p.1 p.2)).card : Int) =
      obj.width * obj.height := by
  have hset : Finset.univ.filter (fun p : Fin 5 × Fin 5 => inRect i j obj p.1 p.2) =
      (Finset.univ.filter (fun a : Fin 5 => i ≤ a.val ∧ a.val < i + obj.height.toNat)) ×ˢ
      (Finset.univ.filter (fun b : Fin 5 => j ≤ b.val ∧ b.val < j + obj.width.toNat)) := by
    ext p
    simp only [Finset.mem_filter, Finset.mem_univ, true_and, Finset.mem_product, inRect]
    omega
  rw [hset, Finset.card_product, card_span i _ (by omega), card_span j _ (by omega)]
  push_cast
  rw [Int.toNat_of_nonneg hh, Int.toNat_of_nonneg hw, mul_comm]

/-! ## Renderer lemmas -/

/-- A loop whose body appends `g i` to the list of calls appends them all, in
order. -/
theorem forEach_emit {β : Type} (body : Nat → List β → Option (List β)) (g : Nat → List β)
    (n : Nat) (h : ∀ i, i < n → ∀ calls, body i calls = some (calls ++ g i)) (calls : List β) :
    forEach body (List.range n) calls = some (calls ++ (List.range n).flatMap g) := by
  induction n with
  | zero => simp [forEach]
  | succ n ih =>
    rw [forEach_range_succ, ih (fun i hi => h i (Nat.lt_succ_of_lt hi))]
    simp only []
    rw [h n (Nat.lt_succ_self n), List.range_succ, List.flatMap_append]
    simp

/-- The call the renderer makes for the cell `(i, j)`, with the index and the
colour of the specification. -/
theorem updateNeoPixelDisplay_body (s : State) (i j : Nat) (hi : i < 5) (hj : j < 5)
    (calls : List NpCall) :
    updateNeoPixelDisplay.body s i j calls =
      some (calls ++ [NpCall.npSetPixelColor
        (if i % 2 = 0 then (4 - (i : Int)) * 5 + (4 - (j : Int)) else (4 - (i : Int)) * 5 + j)
        (if s.led_matrix ⟨i, hi⟩ ⟨j, hj⟩ = 1 then s.led_colors ⟨i, hi⟩ ⟨j, hj⟩ else ⟨0, 0, 0⟩).r
        (if s.led_matrix ⟨i, hi⟩ ⟨j, hj⟩ = 1 then s.led_colors ⟨i, hi⟩ ⟨j, hj⟩ else ⟨0, 0, 0⟩).g
        (if s.led_matrix ⟨i, hi⟩ ⟨j, hj⟩ = 1 then s.led_colors ⟨i, hi⟩ ⟨j, hj⟩ else ⟨0, 0, 0⟩).b]) := by
  simp only [updateNeoPixelDisplay.body, readCell_inBounds _ hi hj, MATRIX_SIZE]
  by_cases hv : s.led_matrix ⟨i, hi⟩ ⟨j, hj⟩ = 1
  · simp only [if_pos hv]; rfl
  · simp only [if_neg hv]; rfl

theorem updateNeoPixelDisplay_body_rendered (s : State) (i j : Nat) (hi : i < 5) (hj : j < 5)
    (calls : List NpCall) :
    updateNeoPixelDisplay.body s i j calls = some (calls ++ [renderedCall s i j]) := by
  rw [updateNeoPixelDisplay_body s i j hi hj, renderedCall, dif_pos ⟨hi, hj⟩]

/-- The calls made by `updateNeoPixelDisplay`: one set-pixel call per cell, row
by row, then one flush. -/
theorem updateNeoPixelDisplay_calls (s : State) :
    updateNeoPixelDisplay s =
      some ((List.range 5).flatMap (fun i => (List.range 5).flatMap (fun j => [renderedCall s i j]))
        ++ [NpCall.npWrite]) := by
  have hinner : ∀ i, i < 5 → ∀ calls,
      forEach (fun j calls2 => updateNeoPixelDisplay.body s i j calls2) (List.range 5) calls =
        some (calls ++ (List.range 5).flatMap (fun j => [renderedCall s i j])) :=
    fun i hi calls => forEach_emit _ _ 5
      (fun j hj calls2 => updateNeoPixelDisplay_body_rendered s i j hi hj calls2) calls
  simp only [updateNeoPixelDisplay, ltRange_eq, MATRIX_SIZE]
  have := forEach_emit
    (fun i calls => forEach (fun j calls2 => updateNeoPixelDisplay.body s i j calls2)
      (List.range 5) calls)
    (fun i => (List.range 5).flatMap (fun j => [renderedCall s i j])) 5 hinner []
  simp only [List.nil_append] at this
  have h5 : (Int.toNat ((5 : Nat) : Int)) = 5 := rfl
  rw [h5, this]

/-- The call for the cell `(i, j)` is the one at position `5 * i + j`. -/
theorem renderedCalls_get (s : State) (i j : Nat) (hi : i < 5) (hj : j < 5) :
    ((List.range 5).flatMap (fun i => (List.range 5).flatMap (fun j => [renderedCall s i j]))
        ++ [NpCall.npWrite]).get? (5 * i + j) = some (renderedCall s i j) := by
  interval_cases i <;> interval_cases j <;> rfl

/-- The pixel indices of the calls, in order. -/
theorem renderedCalls_indices (s : State) :
    ((List.range 5).flatMap
        (fun i => (List.range 5).flatMap (fun j => [renderedCall s i j]))).map NpCall.pixelIndex =
      [some 24, some 23, some 22, some 21, some 20, some 15, some 16, some 17, some 18, some 19,
        some 14, some 13, some 12, some 11, some 10, some 5, some 6, some 7, some 8, some 9,
        some 4, some 3, some 2, some 1, some 0] := by
  rfl

/-! ## Evaluating a placement -/

/-- The call places the object at `(i, j)` when that anchor fits and no anchor
before it in row-major order does. -/
theorem placeObjectInMatrix_eq_of_first (s : State) (obj : Object) (c : Color) (i j : Nat)
    (hidx : 0 ≤ s.current_color_index ∧ s.current_color_index < 6)
    (hc : paletteColor s.current_color_index = some c)
    (h0 : 0 ≤ obj.height) (w0 : 0 ≤ obj.width)
    (hfit : fitsAt s.led_matrix obj i j)
    (hleast : ∀ i' j' : Fin 6, fitsAt s.led_matrix obj i'.val j'.val →
      i < i'.val ∨ (i = i'.val ∧ j ≤ j'.val)) :
    placeObjectInMatrix s obj = some (1, markRect s i j obj c) := by
  obtain ⟨r, g, b, hr, hg, hb, hc'⟩ := readColors_inBounds _ hidx.1 hidx.2
  have hcol : c = ⟨r, g, b⟩ := Option.some.inj (hc.symm.trans hc')
  rcases placeObjectInMatrix_cases s obj r g b hr hg hb with
    ⟨_, hno⟩ | ⟨i0, j0, hfit0, hleast0, hres⟩
  · exact absurd hfit (hno i j)
  · have h1 := hleast0 i j hfit
    have hi0 : i0 < 6 := by have := hfit0.1.1; omega
    have hj0 : j0 < 6 := by have := hfit0.1.2; omega
    have h2 := hleast ⟨i0, hi0⟩ ⟨j0, hj0⟩ hfit0
    simp only [] at h2
    have hi : i0 = i := by omega
    have hj : j0 = j := by omega
    rw [hres, hi, hj, hcol]

theorem placeStep_eq_of_first (s : State) (obj : Object) (c : Color) (i j : Nat)
    (hidx : 0 ≤ s.current_color_index ∧ s.current_color_index < 6)
    (hc : paletteColor s.current_color_index = some c)
    (h0 : 0 ≤ obj.height) (w0 : 0 ≤ obj.width)
    (hfit : fitsAt s.led_matrix obj i j)
    (hleast : ∀ i' j' : Fin 6, fitsAt s.led_matrix obj i'.val j'.val →
      i < i'.val ∨ (i = i'.val ∧ j ≤ j'.val)) :
    placeStep s obj = some (1, changeObjectColor (markRect s i j obj c)) := by
  simp only [placeStep, placeObjectInMatrix_eq_of_first s obj c i j hidx hc h0 w0 hfit hleast]
  rfl


/-- Marking a free in-bounds rectangle is a placement in the sense of `placedAt`. -/
theorem placedAt_markRect (s : State) (obj : Object) (c : Color) (i j : Nat)
    (hh : 0 ≤ obj.height) (hw : 0 ≤ obj.width) (hfit : fitsAt s.led_matrix obj i j) :
    placedAt s (markRect s i j obj c) obj c i j := by
  obtain ⟨⟨hi, hj⟩, hfree⟩ := hfit
  have hi' : (i : Int) + obj.height ≤ 5 := by omega
  have hj' : (j : Int) + obj.width ≤ 5 := by omega
  refine ⟨hi', hj', card_inRect i j obj hh hw hi' hj', ?_, ?_⟩
  · intro a b hab
    refine ⟨hfree a b hab, ?_, ?_⟩
    · simp only [markRect, if_pos hab]
      decide
    · simp only [markRect, if_pos hab]
  · intro a b hab
    simp only [markRect, if_neg hab, and_self]

/-- A non-empty placement determines its anchor. -/
theorem placedAt_anchor_unique (s s' : State) (obj : Object) (c : Color) (i j i' j' : Nat)
    (hh : 1 ≤ obj.height) (hw : 1 ≤ obj.width)
    (h : placedAt s s' obj c i j) (h' : placedAt s s' obj c i' j') : i' = i ∧ j' = j := by
  have key : ∀ i j i' j', placedAt s s' obj c i j → placedAt s s' obj c i' j' →
      i' ≤ i ∧ j' ≤ j := by
    intro i j i' j' h h'
    obtain ⟨hi, hj, _, hin, _⟩ := h
    obtain ⟨_, _, _, _, hout'⟩ := h'
    have hcell : inRect i j obj ⟨i, by omega⟩ ⟨j, by omega⟩ := by
      simp only [inRect]; omega
    by_contra hcon
    have hnot : ¬ inRect i' j' obj ⟨i, by omega⟩ ⟨j, by omega⟩ := by
      simp only [inRect]; omega
    have h1 := hin _ _ hcell
    have h2 := hout' _ _ hnot
    exact h1.2.1 (h2.1.trans h1.1)
  have h1 := key i j i' j' h h'
  have h2 := key i' j' i j h' h
  omega

/-! ## Placement contract -/

/-- C1: for every grid, every index into the colour table and every object
with width and height in `[1,5]`, `placeObjectInMatrix` either returns `1` and
there is an anchor `(i, j)` with `i + height <= 5` and `j + width <= 5` whose
rectangle has `width * height` cells, all unoccupied before the call, all
occupied after it and all carrying `colors[current_color_index]`, while every
cell outside the rectangle keeps its occupancy and colour (`placedAt`); or it
returns `0` and the globals are exactly as before the call. -/
theorem placeObjectInMatrix_placed_or_rejected (s : State) (obj : Object)
    (hw : 1 ≤ obj.width ∧ obj.width ≤ 5) (hh : 1 ≤ obj.height ∧ obj.height ≤ 5)
    (hidx : 0 ≤ s.current_color_index ∧ s.current_color_index < 6) :
    ∃ c, paletteColor s.current_color_index = some c ∧
      ((∃ (s' : State) (i j : Nat),
          placeObjectInMatrix s obj = some (1, s') ∧ placedAt s s' obj c i j) ∨
        placeObjectInMatrix s obj = some (0, s)) := by
  obtain ⟨r, g, b, hr, hg, hb, hc⟩ := readColors_inBounds _ hidx.1 hidx.2
  refine ⟨⟨r, g, b⟩, hc, ?_⟩
  rcases placeObjectInMatrix_cases s obj r g b hr hg hb with ⟨hres, _⟩ | ⟨i, j, hfit, _, hres⟩
  · exact Or.inr hres
  · exact Or.inl ⟨_, i, j, hres, placedAt_markRect s obj _ i j (by omega) (by omega) hfit⟩

/-- C1 at a grid whose first two rows are occupied, with palette index `1`, for
an object of width `3` and height `2`. -/
theorem placeObjectInMatrix_placed_or_rejected_witness :
    ∃ c, paletteColor twoRowsState.current_color_index = some c ∧
      ((∃ (s' : State) (i j : Nat),
          placeObjectInMatrix twoRowsState ⟨3, 2⟩ = some (1, s') ∧
            placedAt twoRowsState s' ⟨3, 2⟩ c i j) ∨
        placeObjectInMatrix twoRowsState ⟨3, 2⟩ = some (0, twoRowsState)) :=
  placeObjectInMatrix_placed_or_rejected twoRowsState ⟨3, 2⟩ (by decide) (by decide)
    (by decide)

/-- C2: row-major first fit.  For every grid and every object with width and
height in `[1,5]`, when `placeObjectInMatrix` returns `1` the anchor it
commits (the only one at which the call is a placement) is least, by row and
then by column, among the in-bounds anchors whose rectangle is entirely
unoccupied; and on the empty grid an object of width `2` and height `1` is
anchored at `(0, 0)`. -/
theorem placeObjectInMatrix_first_fit :
    (∀ (s s' : State) (obj : Object),
      1 ≤ obj.width ∧ obj.width ≤ 5 → 1 ≤ obj.height ∧ obj.height ≤ 5 →
      0 ≤ s.current_color_index ∧ s.current_color_index < 6 →
      placeObjectInMatrix s obj = some (1, s') →
      ∃ (c : Color) (i j : Nat), paletteColor s.current_color_index = some c ∧
        placedAt s s' obj c i j ∧
        (∀ i' j', placedAt s s' obj c i' j' → i' = i ∧ j' = j) ∧
        fitsAt s.led_matrix obj i j ∧
        (∀ i' j', fitsAt s.led_matrix obj i' j' → i < i' ∨ (i = i' ∧ j ≤ j'))) ∧
    (∃ s', placeObjectInMatrix initState ⟨2, 1⟩ = some (1, s') ∧
      placedAt initState s' ⟨2, 1⟩ ⟨32, 32, 32⟩ 0 0) := by
  have general : ∀ (s s' : State) (obj : Object),
      1 ≤ obj.width ∧ obj.width ≤ 5 → 1 ≤ obj.height ∧ obj.height ≤ 5 →
      0 ≤ s.current_color_index ∧ s.current_color_index < 6 →
      placeObjectInMatrix s obj = some (1, s') →
      ∃ (c : Color) (i j : Nat), paletteColor s.current_color_index = some c ∧
        placedAt s s' obj c i j ∧
        (∀ i' j', placedAt s s' obj c i' j' → i' = i ∧ j' = j) ∧
        fitsAt s.led_matrix obj i j ∧
        (∀ i' j', fitsAt s.led_matrix obj i' j' → i < i' ∨ (i = i' ∧ j ≤ j')) := by
    intro s s' obj hw hh hidx hplace
    obtain ⟨r, g, b, hr, hg, hb, hc⟩ := readColors_inBounds _ hidx.1 hidx.2
    rcases placeObjectInMatrix_cases s obj r g b hr hg hb with
      ⟨hres, _⟩ | ⟨i, j, hfit, hleast, hres⟩
    · rw [hres] at hplace
      have := congrArg (fun o => o.map Prod.fst) hplace
      simp at this
    · have hs' : s' = markRect s i j obj ⟨r, g, b⟩ := by
        rw [hres] at hplace
        injection hplace with h1
        injection h1 with _ h2
        exact h2.symm
      have hp : placedAt s s' obj ⟨r, g, b⟩ i j := by
        rw [hs']
        exact placedAt_markRect s obj _ i j (by omega) (by omega) hfit
      exact ⟨⟨r, g, b⟩, i, j, hc, hp,
        fun i' j' h' => placedAt_anchor_unique s s' obj _ i j i' j' hh.1 hw.1 hp h',
        hfit, hleast⟩
  refine ⟨general, ?_⟩
  rcases placeObjectInMatrix_cases initState ⟨2, 1⟩ 32 32 32 rfl rfl rfl with
    ⟨_, hno⟩ | ⟨i, j, hfit, hleast, hres⟩
  · exact absurd (by decide : fitsAt initState.led_matrix ⟨2, 1⟩ 0 0) (hno 0 0)
  · have h00 := hleast 0 0 (by decide)
    have hi : i = 0 := by omega
    have hj : j = 0 := by omega
    subst hi hj
    exact ⟨_, hres, placedAt_markRect initState ⟨2, 1⟩ _ 0 0 (by decide) (by decide) hfit⟩

/-- C2 at the grid whose first two rows are occupied, for an object of width
`3` and height `2`: the committed anchor is the least fitting one. -/
theorem placeObjectInMatrix_first_fit_witness :
    placeObjectInMatrix twoRowsState ⟨3, 2⟩ =
        some (1, markRect twoRowsState 2 0 ⟨3, 2⟩ ⟨32, 0, 0⟩) ∧
    ∃ (c : Color) (i j : Nat), paletteColor twoRowsState.current_color_index = some c ∧
      placedAt twoRowsState (markRect twoRowsState 2 0 ⟨3, 2⟩ ⟨32, 0, 0⟩) ⟨3, 2⟩ c i j ∧
      (∀ i' j', placedAt twoRowsState (markRect twoRowsState 2 0 ⟨3, 2⟩ ⟨32, 0, 0⟩)
        ⟨3, 2⟩ c i' j' → i' = i ∧ j' = j) ∧
      fitsAt twoRowsState.led_matrix ⟨3, 2⟩ i j ∧
      (∀ i' j', fitsAt twoRowsState.led_matrix ⟨3, 2⟩ i' j' → i < i' ∨ (i = i' ∧ j ≤ j')) := by
  have hplace : placeObjectInMatrix twoRowsState ⟨3, 2⟩ =
      some (1, markRect twoRowsState 2 0 ⟨3, 2⟩ ⟨32, 0, 0⟩) :=
    placeObjectInMatrix_eq_of_first _ _ _ _ _ (by decide) (by decide) (by decide) (by decide)
      (by decide) (by decide)
  exact ⟨hplace, placeObjectInMatrix_first_fit.1 twoRowsState _ ⟨3, 2⟩ (by decide) (by decide)
    (by decide) hplace⟩

/-- C3: for every grid and every object (in particular every object with width
and height in `[1,5]`), `placeObjectInMatrix` returns, and it returns `0` if
and only if no anchor
`(i, j)` with `0 <= i <= 5 - height` and `0 <= j <= 5 - width` has its
rectangle entirely unoccupied; in that case the globals are unchanged. -/
theorem placeObjectInMatrix_rejected_iff (s : State) (obj : Object)
    (hidx : 0 ≤ s.current_color_index ∧ s.current_color_index < 6) :
    ∃ (ret : Int) (s' : State), placeObjectInMatrix s obj = some (ret, s') ∧
      (ret = 0 ↔ ∀ i j : Nat, (i : Int) ≤ 5 - obj.height → (j : Int) ≤ 5 - obj.width →
        ¬ rectFree s.led_matrix i j obj) ∧
      (ret = 0 → s' = s) := by
  obtain ⟨r, g, b, hr, hg, hb, _⟩ := readColors_inBounds _ hidx.1 hidx.2
  rcases placeObjectInMatrix_cases s obj r g b hr hg hb with
    ⟨hres, hno⟩ | ⟨i, j, hfit, _, hres⟩
  · refine ⟨0, s, hres, ⟨fun _ i j hi hj hfree => hno i j ⟨⟨hi, hj⟩, hfree⟩, fun _ => rfl⟩,
      fun _ => rfl⟩
  · refine ⟨1, _, hres, ⟨fun h => absurd h (by decide), fun hno => ?_⟩,
      fun h => absurd h (by decide)⟩
    exact absurd hfit.2 (hno i j hfit.1.1 hfit.1.2)

/-- C3 on a full grid, for an object of width `1` and height `1`. -/
theorem placeObjectInMatrix_rejected_iff_witness :
    ∃ (ret : Int) (s' : State), placeObjectInMatrix fullState ⟨1, 1⟩ = some (ret, s') ∧
      (ret = 0 ↔ ∀ i j : Nat, (i : Int) ≤ 5 - (1 : Int) → (j : Int) ≤ 5 - (1 : Int) →
        ¬ rectFree fullState.led_matrix i j ⟨1, 1⟩) ∧
      (ret = 0 → s' = fullState) :=
  placeObjectInMatrix_rejected_iff fullState ⟨1, 1⟩ (by decide)

/-- C4: for every grid and every object whose height exceeds `5` or whose width
exceeds `5`, `placeObjectInMatrix` returns `0` and leaves the globals
unchanged. -/
theorem placeObjectInMatrix_oversize_rejected (s : State) (obj : Object)
    (hidx : 0 ≤ s.current_color_index ∧ s.current_color_index < 6)
    (hbig : 5 < obj.height ∨ 5 < obj.width) :
    placeObjectInMatrix s obj = some (0, s) := by
  obtain ⟨r, g, b, hr, hg, hb, _⟩ := readColors_inBounds _ hidx.1 hidx.2
  rcases placeObjectInMatrix_cases s obj r g b hr hg hb with
    ⟨hres, _⟩ | ⟨i, j, hfit, _, _⟩
  · exact hres
  · obtain ⟨⟨hi, hj⟩, _⟩ := hfit
    omega

/-- C4 on the empty grid, for an object of width `6` and height `1`. -/
theorem placeObjectInMatrix_oversize_rejected_witness :
    (0 ≤ initState.current_color_index ∧ initState.current_color_index < 6) ∧
    (5 < (1 : Int) ∨ 5 < (6 : Int)) ∧
    placeObjectInMatrix initState ⟨6, 1⟩ = some (0, initState) :=
  ⟨by decide, by decide,
    placeObjectInMatrix_oversize_rejected initState ⟨6, 1⟩ (by decide) (by decide)⟩

/-! ## Colour cycling -/

theorem changeObjectColor_index (s : State) (h0 : 0 ≤ s.current_color_index) :
    (changeObjectColor s).current_color_index = (s.current_color_index + 1) % 5 := by
  simp only [changeObjectColor]
  exact Int.tmod_eq_emod (by omega) (by decide)

/-- The outcome of the Place step, for every object and every grid. -/
theorem placeStep_cases (s : State) (obj : Object)
    (hidx : 0 ≤ s.current_color_index ∧ s.current_color_index < 6) :
    (placeStep s obj = some (0, s) ∧ ∀ i j, ¬ fitsAt s.led_matrix obj i j) ∨
    (∃ c i j, paletteColor s.current_color_index = some c ∧ fitsAt s.led_matrix obj i j ∧
      placeStep s obj = some (1, changeObjectColor (markRect s i j obj c))) := by
  obtain ⟨r, g, b, hr, hg, hb, hc⟩ := readColors_inBounds _ hidx.1 hidx.2
  rcases placeObjectInMatrix_cases s obj r g b hr hg hb with
    ⟨hres, hno⟩ | ⟨i, j, hfit, _, hres⟩
  · left
    refine ⟨?_, hno⟩
    simp only [placeStep, hres]
    rfl
  · right
    refine ⟨⟨r, g, b⟩, i, j, hc, hfit, ?_⟩
    simp only [placeStep, hres]
    rfl

/-- In a run that starts with palette index `idx` in `0..4`, the `k`-th
successful placement uses `colors[(idx + k) % 5]`. -/
theorem usedColors_cycle (objs : List Object) :
    ∀ s : State, 0 ≤ s.current_color_index ∧ s.current_color_index < 5 →
      ∃ cs, usedColors s objs = some cs ∧
        ∀ k : Nat, k < cs.length →
          cs.get? k = paletteColor ((s.current_color_index + k) % 5) := by
  induction objs with
  | nil =>
    intro s _
    exact ⟨[], rfl, fun k hk => absurd hk (Nat.not_lt_zero k)⟩
  | cons obj rest ih =>
    intro s hidx
    have hidx6 : 0 ≤ s.current_color_index ∧ s.current_color_index < 6 := ⟨hidx.1, by omega⟩
    rcases placeStep_cases s obj hidx6 with ⟨hres, _⟩ | ⟨c, i, j, hc, _, hres⟩
    · obtain ⟨r, g, b, _, _, _, hc⟩ := readColors_inBounds _ hidx6.1 hidx6.2
      obtain ⟨cs, hcs, hget⟩ := ih s hidx
      refine ⟨cs, ?_, hget⟩
      simp only [usedColors, hc, hres, hcs]
      rfl
    · have hidx' : (changeObjectColor (markRect s i j obj c)).current_color_index =
          (s.current_color_index + 1) % 5 := changeObjectColor_index _ hidx.1
      obtain ⟨cs, hcs, hget⟩ := ih (changeObjectColor (markRect s i j obj c))
        (by rw [hidx']; omega)
      refine ⟨c :: cs, ?_, ?_⟩
      · simp only [usedColors, hc, hres, hcs]
        rfl
      · intro k hk
        cases k with
        | zero =>
          have : (s.current_color_index + ((0 : Nat) : Int)) % 5 = s.current_color_index := by
            omega
          rw [this, hc]
          rfl
        | succ k =>
          have hk' : k < cs.length := by simpa using hk
          rw [List.get?_cons_succ, hget k hk', hidx']
          congr 1
          push_cast
          omega

/-- C5: colour cycling in the Place step.  The step returns `1` or `0`; the
palette index becomes `(index + 1) mod 5` exactly when it returns `1` and is
unchanged when it returns `0`; consequently in any run of Place steps the
colour used by the `(n+5)`-th successful placement is the colour used by the
`n`-th, and in a run from the initial state with six successful placements the
sixth reuses the first colour. -/
theorem placeStep_colour_cycle :
    (∀ (s : State) (obj : Object),
      0 ≤ s.current_color_index ∧ s.current_color_index < 5 →
      ∃ (ret : Int) (s' : State), placeStep s obj = some (ret, s') ∧
        (ret = 1 ∨ ret = 0) ∧
        (ret = 1 ↔ s'.current_color_index = (s.current_color_index + 1) % 5) ∧
        (ret = 0 → s'.current_color_index = s.current_color_index)) ∧
    (∀ (s : State) (objs : List Object),
      0 ≤ s.current_color_index ∧ s.current_color_index < 5 →
      ∃ cs, usedColors s objs = some cs ∧
        ∀ n : Nat, n + 5 < cs.length → cs.get? (n + 5) = cs.get? n) ∧
    usedColors initState [⟨1, 1⟩, ⟨2, 1⟩, ⟨5, 5⟩, ⟨1, 3⟩, ⟨1, 1⟩, ⟨2, 2⟩, ⟨3, 2⟩] =
      some [⟨32, 32, 32⟩, ⟨32, 0, 0⟩, ⟨0, 32, 0⟩, ⟨0, 0, 32⟩, ⟨32, 0, 32⟩, ⟨32, 32, 32⟩] := by
  refine ⟨?_, ?_, by decide⟩
  · intro s obj hidx
    rcases placeStep_cases s obj ⟨hidx.1, by omega⟩ with ⟨hres, _⟩ | ⟨c, i, j, _, _, hres⟩
    · refine ⟨0, s, hres, Or.inr rfl, ⟨fun h => absurd h (by decide), fun h => ?_⟩, fun _ => rfl⟩
      omega
    · have hidx' : (changeObjectColor (markRect s i j obj c)).current_color_index =
          (s.current_color_index + 1) % 5 := changeObjectColor_index _ hidx.1
      exact ⟨1, _, hres, Or.inl rfl, ⟨fun _ => hidx', fun _ => rfl⟩, fun h => absurd h (by decide)⟩
  · intro s objs hidx
    obtain ⟨cs, hcs, hget⟩ := usedColors_cycle objs s hidx
    refine ⟨cs, hcs, fun n hn => ?_⟩
    rw [hget (n + 5) hn, hget n (by omega)]
    congr 1
    push_cast
    omega

/-- C5 at the grid whose first two rows are occupied (palette index `1`): the
Place step for an object of width `3` and height `2`, and the run of that
single object. -/
theorem placeStep_colour_cycle_witness :
    (∃ (ret : Int) (s' : State), placeStep twoRowsState ⟨3, 2⟩ = some (ret, s') ∧
        (ret = 1 ∨ ret = 0) ∧
        (ret = 1 ↔ s'.current_color_index = (twoRowsState.current_color_index + 1) % 5) ∧
        (ret = 0 → s'.current_color_index = twoRowsState.current_color_index)) ∧
    (∃ cs, usedColors twoRowsState [⟨3, 2⟩] = some cs ∧
        ∀ n : Nat, n + 5 < cs.length → cs.get? (n + 5) = cs.get? n) :=
  ⟨placeStep_colour_cycle.1 twoRowsState ⟨3, 2⟩ (by decide),
    placeStep_colour_cycle.2.1 twoRowsState [⟨3, 2⟩] (by decide)⟩

theorem ledIndexAt_eq (s : State) (i j : Nat) (hi : i < 5) (hj : j < 5) :
    ledIndexAt s i j =
      some (if i % 2 = 0 then (4 - (i : Int)) * 5 + (4 - (j : Int)) else (4 - (i : Int)) * 5 + j) := by
  simp only [ledIndexAt, updateNeoPixelDisplay_calls, renderedCalls_get s i j hi hj]
  simp only [renderedCall, dif_pos (And.intro hi hj), NpCall.pixelIndex]

/-! ## Serpentine renderer -/

/-- C6: serpentine mapping.  For every grid and every logical cell `(i, j)`
with `0 <= i, j <= 4`, the LED index computed by `updateNeoPixelDisplay` is
`phys_row * 5 + phys_col` with `phys_row = 4 - i`, and `phys_col = 4 - j` when
`i` is even, `phys_col = j` when `i` is odd; logical `(4, 4)` maps to `0` and
logical `(3, 0)` maps to `5`. -/
theorem updateNeoPixelDisplay_serpentine (s : State) :
    (∀ i j : Nat, i ≤ 4 → j ≤ 4 → ledIndexAt s i j = some (physIndex i j)) ∧
    ledIndexAt s 4 4 = some 0 ∧ ledIndexAt s 3 0 = some 5 := by
  have general : ∀ i j : Nat, i ≤ 4 → j ≤ 4 → ledIndexAt s i j = some (physIndex i j) := by
    intro i j hi hj
    rw [ledIndexAt_eq s i j (by omega) (by omega)]
    simp only [physIndex]
    by_cases hpar : i % 2 = 0
    · simp only [if_pos hpar]
    · simp only [if_neg hpar]
  refine ⟨general, ?_, ?_⟩
  · rw [general 4 4 (by decide) (by decide)]; rfl
  · rw [general 3 0 (by decide) (by decide)]; rfl

/-- C6 on the grid whose first two rows are occupied, at the logical cell
`(1, 2)`: the LED index is `3 * 5 + 2`. -/
theorem updateNeoPixelDisplay_serpentine_witness :
    ledIndexAt twoRowsState 1 2 = some (physIndex 1 2) ∧ physIndex 1 2 = 17 :=
  ⟨(updateNeoPixelDisplay_serpentine twoRowsState).1 1 2 (by decide) (by decide), by decide⟩

/-- C7: for every grid, one call of `updateNeoPixelDisplay` makes exactly 25
set-pixel calls followed by exactly one flush and nothing else; the pixel
indices are pairwise distinct and are exactly the integers `0, ..., 24`, so
that the map from the 5x5 logical cells to LED indices is injective and onto
`0..24`. -/
theorem updateNeoPixelDisplay_frame (s : State) :
    ∃ calls, updateNeoPixelDisplay s = some (calls ++ [NpCall.npWrite]) ∧
      calls.length = 25 ∧
      (∀ c, c ∈ calls → ∃ index r g b, c = NpCall.npSetPixelColor index r g b) ∧
      (calls.map NpCall.pixelIndex).Nodup ∧
      (∀ n : Int, some n ∈ calls.map NpCall.pixelIndex ↔ 0 ≤ n ∧ n < 25) ∧
      (∀ p q : Fin 5 × Fin 5,
        ledIndexAt s p.1 p.2 = ledIndexAt s q.1 q.2 → p = q) ∧
      (∀ n : Int, 0 ≤ n ∧ n < 25 → ∃ p : Fin 5 × Fin 5, ledIndexAt s p.1 p.2 = some n) := by
  refine ⟨_, updateNeoPixelDisplay_calls s, by rfl, ?_, ?_, ?_, ?_, ?_⟩
  · intro c hc
    simp only [List.mem_flatMap, List.mem_range, List.mem_singleton] at hc
    obtain ⟨i, hi, j, hj, rfl⟩ := hc
    simp only [renderedCall, dif_pos (And.intro hi hj)]
    exact ⟨_, _, _, _, rfl⟩
  · rw [renderedCalls_indices]
    decide
  · intro n
    rw [renderedCalls_indices]
    simp only [List.mem_cons, Option.some.injEq, List.mem_singleton, List.not_mem_nil, or_false]
    omega
  · intro p q h
    rw [ledIndexAt_eq s _ _ p.1.isLt p.2.isLt, ledIndexAt_eq s _ _ q.1.isLt q.2.isLt] at h
    have h' := Option.some.inj h
    have hp1 := p.1.isLt
    have hp2 := p.2.isLt
    have hq1 := q.1.isLt
    have hq2 := q.2.isLt
    have : p.1.val = q.1.val ∧ p.2.val = q.2.val := by
      split at h' <;> split at h' <;> omega
    exact Prod.ext (Fin.ext this.1) (Fin.ext this.2)
  · intro n hn
    have hcases : ∀ i j : Fin 5, ledIndexAt s i.val j.val = some (physIndex i.val j.val) :=
      fun i j => (by
        rw [ledIndexAt_eq s _ _ i.isLt j.isLt]
        simp only [physIndex]
        by_cases hpar : i.val % 2 = 0
        · simp only [if_pos hpar]
        · simp only [if_neg hpar])
    have hex : ∃ p : Fin 5 × Fin 5, physIndex p.1.val p.2.val = n := by
      obtain ⟨h0, h25⟩ := hn
      interval_cases n <;> decide
    obtain ⟨p, hp⟩ := hex
    exact ⟨p, by rw [hcases, hp]⟩

/-! ## Reachable states -/

/-- In every reachable state each cell of `led_matrix` holds `0` or `1` and the
palette index lies in `0..4`. -/
theorem Reachable.cells_and_index {s : State} (hs : Reachable s) :
    (∀ a b, s.led_matrix a b = 0 ∨ s.led_matrix a b = 1) ∧
      0 ≤ s.current_color_index ∧ s.current_color_index < 5 := by
  induction hs with
  | init => exact ⟨fun _ _ => Or.inl rfl, by decide, by decide⟩
  | step s s' obj ret _ hstep ih =>
    obtain ⟨hcells, h0, h5⟩ := ih
    rcases placeStep_cases s obj ⟨h0, by omega⟩ with ⟨hres, _⟩ | ⟨c, i, j, _, _, hres⟩
    · have : s' = s := by
        rw [hres] at hstep
        injection hstep with h1
        injection h1 with _ h2
        exact h2.symm
      rw [this]
      exact ⟨hcells, h0, h5⟩
    · have : s' = changeObjectColor (markRect s i j obj c) := by
        rw [hres] at hstep
        injection hstep with h1
        injection h1 with _ h2
        exact h2.symm
      rw [this]
      refine ⟨fun a b => ?_, ?_⟩
      · simp only [changeObjectColor, markRect]
        by_cases hin : inRect i j obj a b
        · exact Or.inr (if_pos hin)
        · rw [if_neg hin]; exact hcells a b
      · have hidx := changeObjectColor_index (markRect s i j obj c) h0
        have hsame : (markRect s i j obj c).current_color_index = s.current_color_index := rfl
        rw [hidx, hsame]
        omega

/-- C8: for every grid reachable from the initial state by placements and every
logical cell `(a, b)`, the set-pixel call that `updateNeoPixelDisplay` makes
for the cell carries the cell's physical index and the colour `(0, 0, 0)` if
the cell is unoccupied, the stored colour `led_colors[a][b]` if it is
occupied (`shownColor`); and no call of the frame writes another colour at that
index. -/
theorem updateNeoPixelDisplay_colours (s : State) (hs : Reachable s) (a b : Fin 5) :
    ∃ calls, updateNeoPixelDisplay s = some calls ∧
      calls.get? (5 * a.val + b.val) =
        some (NpCall.npSetPixelColor (physIndex a.val b.val)
          (shownColor s a b).r (shownColor s a b).g (shownColor s a b).b) ∧
      ∀ r g b', NpCall.npSetPixelColor (physIndex a.val b.val) r g b' ∈ calls →
        (⟨r, g, b'⟩ : Color) = shownColor s a b := by
  have hcell := hs.cells_and_index.1
  have hshown : ∀ a b : Fin 5,
      (if s.led_matrix a b = 1 then s.led_colors a b else ⟨0, 0, 0⟩) = shownColor s a b := by
    intro a b
    simp only [shownColor]
    rcases hcell a b with h | h
    · rw [h]
      rfl
    · rw [h]
      rfl
  have hcall : ∀ a b : Fin 5, renderedCall s a.val b.val =
      NpCall.npSetPixelColor (physIndex a.val b.val)
        (shownColor s a b).r (shownColor s a b).g (shownColor s a b).b := by
    intro a b
    simp only [renderedCall, dif_pos (And.intro a.isLt b.isLt), Fin.eta, hshown, physIndex]
    by_cases hpar : a.val % 2 = 0
    · simp only [if_pos hpar]
    · simp only [if_neg hpar]
  refine ⟨_, updateNeoPixelDisplay_calls s, ?_, ?_⟩
  · rw [renderedCalls_get s a.val b.val a.isLt b.isLt, hcall]
  · intro r g b' hmem
    simp only [List.mem_append, List.mem_flatMap, List.mem_range, List.mem_singleton] at hmem
    rcases hmem with ⟨i, hi, j, hj, heq⟩ | hflush
    · have := hcall ⟨i, hi⟩ ⟨j, hj⟩
      simp only [] at this
      rw [this] at heq
      injection heq with hidx hr hg hb
      have hij : a.val = i ∧ b.val = j := by
        simp only [physIndex] at hidx
        have ha := a.isLt
        have hb5 := b.isLt
        split at hidx <;> split at hidx <;> omega
      have ha : a = ⟨i, hi⟩ := Fin.ext hij.1
      have hb : b = ⟨j, hj⟩ := Fin.ext hij.2
      subst ha hb
      rw [hr, hg, hb]
    · cases hflush

/-- C8 in the state reached by placing an object of width `2` and height `1`
on the empty grid, at the occupied cell `(0, 1)`: the call carries index `23`
and the stored colour `(32, 32, 32)`. -/
theorem updateNeoPixelDisplay_colours_witness :
    ∃ s : State, Reachable s ∧ physIndex 0 1 = 23 ∧ shownColor s 0 1 = ⟨32, 32, 32⟩ ∧
      ∃ calls, updateNeoPixelDisplay s = some calls ∧
        calls.get? (5 * 0 + 1) =
          some (NpCall.npSetPixelColor (physIndex 0 1)
            (shownColor s 0 1).r (shownColor s 0 1).g (shownColor s 0 1).b) ∧
        ∀ r g b', NpCall.npSetPixelColor (physIndex 0 1) r g b' ∈ calls →
          (⟨r, g, b'⟩ : Color) = shownColor s 0 1 :=
  have hreach : Reachable (changeObjectColor (markRect initState 0 0 ⟨2, 1⟩ ⟨32, 32, 32⟩)) :=
    Reachable.step initState _ ⟨2, 1⟩ 1 Reachable.init
      (placeStep_eq_of_first _ _ _ _ _ (by decide) (by decide) (by decide) (by decide)
        (by decide) (by decide))
  ⟨_, hreach, by decide, by decide, updateNeoPixelDisplay_colours _ hreach 0 1⟩

/-! ## Grid-full detection -/

/-- One row of `isMatrixFull`: the inner loop falls through when no cell of row
`i` is zero and returns `0` otherwise. -/
theorem isMatrixFull_inner (m : Grid Int) (i : Nat) (hi : i < 5) :
    (forReturn (fun j => isMatrixFull.body m i j) (List.range 5) = some none ∧
      ∀ b : Fin 5, m ⟨i, hi⟩ b ≠ 0) ∨
    (forReturn (fun j => isMatrixFull.body m i j) (List.range 5) = some (some 0) ∧
      ∃ b : Fin 5, m ⟨i, hi⟩ b = 0) := by
  have hbody : ∀ j (hj : j < 5), isMatrixFull.body m i j =
      if m ⟨i, hi⟩ ⟨j, hj⟩ = 0 then some (some (0 : Int)) else some none := by
    intro j hj
    simp only [isMatrixFull.body]
    rw [readCell_inBounds m hi hj]
  rcases forReturn_range_cases (fun j => isMatrixFull.body m i j) 5
      (by
        intro j hj
        simp only [hbody j hj]
        split <;> simp) with ⟨hres, hall⟩ | ⟨j, v, hj, _, hit, hres⟩
  · left
    refine ⟨hres, fun b hzero => ?_⟩
    have h := hall b.val b.isLt
    rw [hbody b.val b.isLt, if_pos hzero] at h
    cases h
  · right
    rw [hbody j hj] at hit
    by_cases hzero : m ⟨i, hi⟩ ⟨j, hj⟩ = 0
    · rw [if_pos hzero] at hit
      have hv : v = 0 := by
        injection hit with h1
        injection h1 with h2
        exact h2.symm
      rw [hres, hv]
      exact ⟨rfl, ⟨j, hj⟩, hzero⟩
    · rw [if_neg hzero] at hit
      cases hit

/-- The value returned by `isMatrixFull`. -/
theorem isMatrixFull_spec (m : Grid Int) :
    isMatrixFull m = some (if ∀ a b : Fin 5, m a b ≠ 0 then 1 else 0) := by
  simp only [isMatrixFull, ltRange_eq, MATRIX_SIZE]
  have h5 : (Int.toNat ((5 : Nat) : Int)) = 5 := rfl
  rw [h5]
  rcases forReturn_range_cases
      (fun i => forReturn (fun j => isMatrixFull.body m i j) (List.range 5)) 5
      (by
        intro i hi hc
        rcases isMatrixFull_inner m i hi with ⟨h, _⟩ | ⟨h, _⟩ <;>
          · exact absurd (h.symm.trans hc) (by simp)) with
    ⟨hres, hall⟩ | ⟨i, v, hi, _, hit, hres⟩
  · rw [hres]
    have hfull : ∀ a b : Fin 5, m a b ≠ 0 := by
      intro a b
      rcases isMatrixFull_inner m a.val a.isLt with ⟨_, h⟩ | ⟨h, _⟩
      · exact h b
      · rw [hall a.val a.isLt] at h
        cases h
    rw [if_pos hfull]
    rfl
  · rw [hres]
    rcases isMatrixFull_inner m i hi with ⟨h, _⟩ | ⟨h, b, hzero⟩
    · exact absurd (h.symm.trans hit) (by simp)
    · have hv : v = 0 := by
        have := hit.symm.trans h
        injection this with h1
        injection h1
      have hnot : ¬ ∀ a b : Fin 5, m a b ≠ 0 := fun hfull => hfull ⟨i, hi⟩ b hzero
      rw [if_neg hnot, hv]
      rfl

/-- C9: for every grid, `isMatrixFull` returns, and it returns `1` if and only
if every one of the 25 cells is non-zero (it returns `0` otherwise); a grid
with all 25 cells occupied reports full, and a grid with exactly one
unoccupied cell, at any position, reports not full. -/
theorem isMatrixFull_iff_all_occupied (m : Grid Int) :
    (∃ ret : Int, isMatrixFull m = some ret ∧ (ret = 1 ∨ ret = 0) ∧
      (ret = 1 ↔ ∀ a b : Fin 5, m a b ≠ 0)) ∧
    ((∀ a b : Fin 5, m a b ≠ 0) → isMatrixFull m = some 1) ∧
    (∀ p q : Fin 5, m p q = 0 → (∀ a b : Fin 5, (a, b) ≠ (p, q) → m a b ≠ 0) →
      isMatrixFull m = some 0) := by
  refine ⟨?_, ?_, ?_⟩
  · by_cases hfull : ∀ a b : Fin 5, m a b ≠ 0
    · refine ⟨1, ?_, Or.inl rfl, fun _ => hfull, fun _ => rfl⟩
      rw [isMatrixFull_spec, if_pos hfull]
    · refine ⟨0, ?_, Or.inr rfl, fun h => absurd h (by decide), fun h => absurd h hfull⟩
      rw [isMatrixFull_spec, if_neg hfull]
  · intro hfull
    rw [isMatrixFull_spec, if_pos hfull]
  · intro p q hzero _
    rw [isMatrixFull_spec, if_neg (fun hfull => hfull p q hzero)]

/-- C9 on the full grid and on the grid whose only unoccupied cell is `(2, 3)`. -/
theorem isMatrixFull_iff_all_occupied_witness :
    isMatrixFull fullState.led_matrix = some 1 ∧
    isMatrixFull (fun a b => if (a, b) = ((2 : Fin 5), (3 : Fin 5)) then 0 else 1) = some 0 :=
  ⟨(isMatrixFull_iff_all_occupied fullState.led_matrix).2.1 (by decide),
    (isMatrixFull_iff_all_occupied _).2.2 2 3 (by decide) (by decide)⟩

/-! ## Dimension wizard -/

theorem clickIncrement_range (c : Int) (h0 : 0 ≤ c) (h5 : c ≤ 5) :
    1 ≤ clickIncrement c ∧ clickIncrement c ≤ 5 := by
  simp only [clickIncrement]
  split <;> omega

theorem button_callback_count (gpio t : Nat) (st : Buttons) :
    (button_callback gpio t st).click_count = st.click_count ∨
      (button_callback gpio t st).click_count = clickIncrement st.click_count := by
  simp only [button_callback]
  split <;> split <;> simp

/-- The handler keeps the counter in a range that is closed under the
increment. -/
theorem handleIrqs_range (lo : Int) (hlo : 0 ≤ lo ∧ lo ≤ 1) (irqs : List (Nat × Nat)) :
    ∀ st : Buttons, lo ≤ st.click_count ∧ st.click_count ≤ 5 →
      lo ≤ (handleIrqs irqs st).click_count ∧ (handleIrqs irqs st).click_count ≤ 5 := by
  induction irqs with
  | nil => intro st h; exact h
  | cons e rest ih =>
    intro st h
    simp only [handleIrqs, List.foldl_cons]
    apply ih
    have hinc := clickIncrement_range st.click_count (by omega) h.2
    rcases button_callback_count e.1 e.2 st with heq | heq <;> rw [heq] <;> omega

/-- A selection loop confirms a value in `lo..5` and leaves the counter in
`lo..5`, when it starts with the counter in `lo..5`, for `lo = 0` and for
`lo = 1`. -/
theorem selectWidth_range (lo : Int) (hlo : 0 ≤ lo ∧ lo ≤ 1) (polls : List Poll) :
    ∀ (st st' : Buttons) (w : Int) (rest : List Poll),
      lo ≤ st.click_count ∧ st.click_count ≤ 5 →
      selectWidth polls st = some (w, st', rest) →
      (lo ≤ w ∧ w ≤ 5) ∧ lo ≤ st'.click_count ∧ st'.click_count ≤ 5 := by
  induction polls with
  | nil => intro st st' w rest _ h; cases h
  | cons p tail ih =>
    intro st st' w rest hst h
    have h1 := handleIrqs_range lo hlo p.irqs st hst
    have hinc := clickIncrement_range (handleIrqs p.irqs st).click_count (by omega) h1.2
    have h2 : lo ≤ (if p.b then { handleIrqs p.irqs st with
          click_count := clickIncrement (handleIrqs p.irqs st).click_count }
        else handleIrqs p.irqs st).click_count ∧
        (if p.b then { handleIrqs p.irqs st with
          click_count := clickIncrement (handleIrqs p.irqs st).click_count }
        else handleIrqs p.irqs st).click_count ≤ 5 := by
      split
      · simp only []; omega
      · exact h1
    simp only [selectWidth] at h
    by_cases ha : p.a = true
    · simp only [ha, if_true, Option.some.injEq, Prod.mk.injEq] at h
      obtain ⟨hw, hst', _⟩ := h
      rw [← hw, ← hst']
      exact ⟨h1, h2⟩
    · simp only [ha] at h
      exact ih _ st' w rest h2 h

theorem selectHeight_range (lo : Int) (hlo : 0 ≤ lo ∧ lo ≤ 1) (polls : List Poll) :
    ∀ (st st' : Buttons) (hgt : Int) (rest : List Poll),
      lo ≤ st.click_count ∧ st.click_count ≤ 5 →
      selectHeight polls st = some (hgt, st', rest) →
      (lo ≤ hgt ∧ hgt ≤ 5) ∧ lo ≤ st'.click_count ∧ st'.click_count ≤ 5 := by
  induction polls with
  | nil => intro st st' w rest _ h; cases h
  | cons p tail ih =>
    intro st st' w rest hst h
    have h1 := handleIrqs_range lo hlo p.irqs st hst
    have hinc := clickIncrement_range (handleIrqs p.irqs st).click_count (by omega) h1.2
    have h2 : lo ≤ (if p.b then { handleIrqs p.irqs st with
          click_count := clickIncrement (handleIrqs p.irqs st).click_count }
        else handleIrqs p.irqs st).click_count ∧
        (if p.b then { handleIrqs p.irqs st with
          click_count := clickIncrement (handleIrqs p.irqs st).click_count }
        else handleIrqs p.irqs st).click_count ≤ 5 := by
      split
      · simp only []; omega
      · exact h1
    simp only [selectHeight] at h
    by_cases ha : p.a = true
    · simp only [ha, if_true, Option.some.injEq, Prod.mk.injEq] at h
      obtain ⟨hw, hst', _⟩ := h
      rw [← hw, ← hst']
      exact ⟨h1, h2⟩
    · simp only [ha] at h
      exact ih _ st' w rest h2 h

/-- What the wizard does guarantee: from a counter in `lo..5` both confirmed
dimensions lie in `lo..5`, for `lo = 0` (which covers the initial counter `0`)
and for `lo = 1`. -/
theorem wizard_range (lo : Int) (hlo : 0 ≤ lo ∧ lo ≤ 1) (polls : List Poll) (st st' : Buttons)
    (obj : Object) (rest : List Poll) (hst : lo ≤ st.click_count ∧ st.click_count ≤ 5)
    (h : wizard polls st = some (obj, st', rest)) :
    (lo ≤ obj.width ∧ obj.width ≤ 5) ∧ (lo ≤ obj.height ∧ obj.height ≤ 5) := by
  simp only [wizard] at h
  rcases hw : selectWidth polls st with _ | ⟨w, st1, rest1⟩
  · rw [hw] at h; cases h
  · rw [hw] at h
    simp only [] at h
    obtain ⟨hwr, hst1⟩ := selectWidth_range lo hlo polls st st1 w rest1 hst hw
    rcases hh : selectHeight rest1 st1 with _ | ⟨hgt, st2, rest2⟩
    · rw [hh] at h; cases h
    · rw [hh] at h
      simp only [Option.some.injEq, Prod.mk.injEq] at h
      obtain ⟨hhr, _⟩ := selectHeight_range lo hlo rest1 st1 st2 hgt rest2 hst1 hh
      rw [← h.1]
      exact ⟨hwr, hhr⟩

/-- C10, evaluated: from the program's initial state, with button A read low
at the first poll of the width loop and at the first poll of `selectHeight`
(button B never read low, no interrupt), the wizard confirms width `0` and
height `0`; so it is not the case that every run from the initial state
confirms dimensions in `[1,5]`. -/
theorem wizard_initial_counter_confirms_zero :
    wizard [⟨[], true, false⟩, ⟨[], true, false⟩] initButtons =
        some (⟨0, 0⟩, initButtons, []) ∧
    ¬ ∀ (polls : List Poll) (obj : Object) (st' : Buttons) (rest : List Poll),
        wizard polls initButtons = some (obj, st', rest) →
        (1 ≤ obj.width ∧ obj.width ≤ 5) ∧ (1 ≤ obj.height ∧ obj.height ≤ 5) := by
  have heval : wizard [⟨[], true, false⟩, ⟨[], true, false⟩] initButtons =
      some (⟨0, 0⟩, initButtons, []) := by decide
  refine ⟨heval, fun hall => ?_⟩
  have := (hall _ _ _ _ heval).1.1
  exact absurd this (by decide)

/-! ## Debounce counter -/

theorem button_callback_accepted (st : Buttons) (t : Nat)
    (h : elapsedMs t st.last_interrupt_time_A > 500) :
    button_callback BUTTON_PIN_A t st =
      { click_count := clickIncrement st.click_count
        last_interrupt_time_A := t
        last_interrupt_time_B := st.last_interrupt_time_B } := by
  simp only [elapsedMs] at h
  simp only [button_callback, h, and_self, if_true, BUTTON_PIN_A, BUTTON_PIN_B]
  rfl

theorem button_callback_ignored (st : Buttons) (t : Nat)
    (h : ¬ elapsedMs t st.last_interrupt_time_A > 500) :
    button_callback BUTTON_PIN_A t st = st := by
  simp only [elapsedMs] at h
  simp only [button_callback, h, and_false, if_false, BUTTON_PIN_A, BUTTON_PIN_B]
  rfl

/-- C11: counter wraparound.  The increment step maps `5` to `1` and every
other value `c` in `0..4` to `c + 1`, so it never leaves `6` in the counter; it
is the step taken by the interrupt handler on an accepted event, by an
iteration of the width loop that reads button B low and by such an iteration
of `selectHeight`; and from the counter's initial value five increments give
`5` and one more gives `1`. -/
theorem clickIncrement_wraps :
    clickIncrement 5 = 1 ∧
    (∀ c : Int, 0 ≤ c ∧ c ≤ 4 → clickIncrement c = c + 1) ∧
    (∀ c : Int, 0 ≤ c ∧ c ≤ 5 → clickIncrement c ≠ 6) ∧
    (∀ (st : Buttons) (t : Nat), elapsedMs t st.last_interrupt_time_A > 500 →
      (button_callback BUTTON_PIN_A t st).click_count = clickIncrement st.click_count) ∧
    (∀ (st : Buttons) (rest : List Poll),
      selectWidth (⟨[], false, true⟩ :: rest) st =
        selectWidth rest { st with click_count := clickIncrement st.click_count }) ∧
    (∀ (st : Buttons) (rest : List Poll),
      selectHeight (⟨[], false, true⟩ :: rest) st =
        selectHeight rest { st with click_count := clickIncrement st.click_count }) ∧
    clickIncrement^[5] initButtons.click_count = 5 ∧
    clickIncrement^[6] initButtons.click_count = 1 := by
  refine ⟨by decide, ?_, ?_, ?_, ?_, ?_, by decide, by decide⟩
  · intro c hc
    simp only [clickIncrement]
    rw [if_neg (by omega)]
  · intro c hc
    simp only [clickIncrement]
    split <;> omega
  · intro st t h
    rw [button_callback_accepted st t h]
  · intro st rest
    rfl
  · intro st rest
    rfl

/-- C11 at the counter value `4`, in the handler state with counter `5`, and in
both selection loops with counter `5`. -/
theorem clickIncrement_wraps_witness :
    clickIncrement 4 = 4 + 1 ∧ clickIncrement 4 ≠ 6 ∧
    (button_callback BUTTON_PIN_A 1501 ⟨5, 1000, 0⟩).click_count = 1 ∧
    selectWidth [⟨[], false, true⟩, ⟨[], true, false⟩] ⟨5, 0, 0⟩ = some (1, ⟨1, 0, 0⟩, []) ∧
    selectHeight [⟨[], false, true⟩, ⟨[], true, false⟩] ⟨5, 0, 0⟩ = some (1, ⟨1, 0, 0⟩, []) :=
  ⟨clickIncrement_wraps.2.1 4 (by decide), clickIncrement_wraps.2.2.1 4 (by decide),
    (clickIncrement_wraps.2.2.2.1 ⟨5, 1000, 0⟩ 1501 (by decide)).trans (by decide),
    (clickIncrement_wraps.2.2.2.2.1 ⟨5, 0, 0⟩ _).trans (by decide),
    (clickIncrement_wraps.2.2.2.2.2.1 ⟨5, 0, 0⟩ _).trans (by decide)⟩

/-- C12, as stated, fails: with the last accepted event at `1000` ms and an
edge on the increment button at `1500` ms, exactly `500` ms have elapsed, and
`button_callback` changes neither the counter nor the last-accepted time. -/
theorem button_callback_at_500_ignored :
    elapsedMs 1500 (⟨3, 1000, 0⟩ : Buttons).last_interrupt_time_A ≥ 500 ∧
    button_callback BUTTON_PIN_A 1500 ⟨3, 1000, 0⟩ = ⟨3, 1000, 0⟩ ∧
    ¬ ∀ (st : Buttons) (t : Nat), elapsedMs t st.last_interrupt_time_A ≥ 500 →
        (button_callback BUTTON_PIN_A t st).click_count = clickIncrement st.click_count ∧
        (button_callback BUTTON_PIN_A t st).last_interrupt_time_A = t := by
  refine ⟨by decide, by decide, fun hall => ?_⟩
  have := (hall ⟨3, 1000, 0⟩ 1500 (by decide)).2
  exact absurd this (by decide)

/-- C12, amended: for every handler state and every edge event on the increment
button at time `t` such that more than `500` ms have elapsed since the last
accepted event on that button (`t - last_interrupt_time_A > 500` in `uint32_t`
arithmetic), `button_callback` increments the counter, with wrap from `5` to
`1`, records `t` as the new last-accepted time and changes nothing else. -/
theorem button_callback_accepts_after_500 (st : Buttons) (t : Nat)
    (h : elapsedMs t st.last_interrupt_time_A > 500) :
    button_callback BUTTON_PIN_A t st =
      { click_count := clickIncrement st.click_count
        last_interrupt_time_A := t
        last_interrupt_time_B := st.last_interrupt_time_B } ∧
    (0 ≤ st.click_count ∧ st.click_count ≤ 4 →
      (button_callback BUTTON_PIN_A t st).click_count = st.click_count + 1) ∧
    (st.click_count = 5 → (button_callback BUTTON_PIN_A t st).click_count = 1) := by
  have hres := button_callback_accepted st t h
  refine ⟨hres, fun hc => ?_, fun hc => ?_⟩
  · rw [hres]
    simp only [clickIncrement]
    rw [if_neg (by omega)]
  · rw [hres]
    simp only [hc]
    rfl

/-- C12, amended, with the last accepted event at `1000` ms and an edge at
`1501` ms, counter `5`. -/
theorem button_callback_accepts_after_500_witness :
    elapsedMs 1501 (⟨5, 1000, 7⟩ : Buttons).last_interrupt_time_A > 500 ∧
    button_callback BUTTON_PIN_A 1501 ⟨5, 1000, 7⟩ = ⟨1, 1501, 7⟩ :=
  ⟨by decide, (button_callback_accepts_after_500 ⟨5, 1000, 7⟩ 1501 (by decide)).1.trans
    (by decide)⟩

/-- C13: debounce coalescing.  For every handler state, if an edge event on the
increment button at time `t1` is accepted and a second edge event on the same
button arrives at `t2` with `t2 - t1 < 500` ms (in `uint32_t` arithmetic, which
is the plain difference when the clock does not wrap between them), the second
event changes neither the counter nor the last-accepted time: after both the
counter has been incremented exactly once and the last-accepted time is
`t1`. -/
theorem button_callback_coalesces (st : Buttons) (t1 t2 : Nat)
    (hacc : elapsedMs t1 st.last_interrupt_time_A > 500)
    (hwin : elapsedMs t2 t1 < 500) :
    button_callback BUTTON_PIN_A t2 (button_callback BUTTON_PIN_A t1 st) =
      button_callback BUTTON_PIN_A t1 st ∧
    (button_callback BUTTON_PIN_A t2 (button_callback BUTTON_PIN_A t1 st)).click_count =
      clickIncrement st.click_count ∧
    (button_callback BUTTON_PIN_A t2
      (button_callback BUTTON_PIN_A t1 st)).last_interrupt_time_A = t1 ∧
    (t1 ≤ t2 → t2 < 2 ^ 32 → elapsedMs t2 t1 = t2 - t1) := by
  have h1 := button_callback_accepted st t1 hacc
  have h2 : button_callback BUTTON_PIN_A t2 (button_callback BUTTON_PIN_A t1 st) =
      button_callback BUTTON_PIN_A t1 st := by
    apply button_callback_ignored
    rw [h1]
    simp only []
    omega
  refine ⟨h2, ?_, ?_, ?_⟩
  · rw [h2, h1]
  · rw [h2, h1]
  · intro hle hlt
    simp only [elapsedMs]
    have : t2 + 2 ^ 32 - t1 = (t2 - t1) + 2 ^ 32 := by omega
    rw [this, Nat.add_mod_right]
    exact Nat.mod_eq_of_lt (by omega)

/-- C13 with the last accepted event at `1000` ms, counter `2`, and edges at
`1600` ms and `1900` ms. -/
theorem button_callback_coalesces_witness :
    button_callback BUTTON_PIN_A 1900 (button_callback BUTTON_PIN_A 1600 ⟨2, 1000, 0⟩) =
      button_callback BUTTON_PIN_A 1600 ⟨2, 1000, 0⟩ ∧
    button_callback BUTTON_PIN_A 1600 ⟨2, 1000, 0⟩ = ⟨3, 1600, 0⟩ :=
  ⟨(button_callback_coalesces ⟨2, 1000, 0⟩ 1600 1900 (by decide) (by decide)).1, by decide⟩

/-! ## Grid invariant -/

/-- A call that returns a value has read its colour from the table. -/
theorem placeObjectInMatrix_some_colors (s : State) (obj : Object) (res : Int × State)
    (h : placeObjectInMatrix s obj = some res) :
    ∃ r g b, readColors s.current_color_index 0 = some r ∧
      readColors s.current_color_index 1 = some g ∧
      readColors s.current_color_index 2 = some b := by
  simp only [placeObjectInMatrix] at h
  split at h
  · next r g b hr hg hb => exact ⟨r, g, b, hr, hg, hb⟩
  · cases h

/-- A call that returns `0` leaves the state as it was. -/
theorem placeObjectInMatrix_rejected_state (s s' : State) (obj : Object)
    (h : placeObjectInMatrix s obj = some (0, s')) : s' = s := by
  obtain ⟨r, g, b, hr, hg, hb⟩ := placeObjectInMatrix_some_colors s obj _ h
  rcases placeObjectInMatrix_cases s obj r g b hr hg hb with ⟨hres, _⟩ | ⟨_, _, _, _, hres⟩
  · rw [hres] at h
    injection h with h1
    injection h1 with _ h2
    exact h2.symm
  · rw [hres] at h
    injection h with h1
    injection h1 with h2 _
    exact absurd h2 (by decide)

/-- Every sequence of calls has a run, from every state whose palette index
indexes the table. -/
theorem CallSeq.exists_run (objs : List Object)
    (hdims : ∀ obj, obj ∈ objs → (1 ≤ obj.width ∧ obj.width ≤ 5) ∧
      (1 ≤ obj.height ∧ obj.height ≤ 5)) :
    ∀ s : State, 0 ≤ s.current_color_index ∧ s.current_color_index < 6 →
      ∃ log sf, CallSeq s objs log sf := by
  induction objs with
  | nil => exact fun s _ => ⟨[], s, CallSeq.done s⟩
  | cons obj rest ih =>
    intro s hidx
    have hd := hdims obj (List.mem_cons_self obj rest)
    have ih' := ih (fun o ho => hdims o (List.mem_cons_of_mem obj ho))
    obtain ⟨r, g, b, hr, hg, hb, _⟩ := readColors_inBounds _ hidx.1 hidx.2
    rcases placeObjectInMatrix_cases s obj r g b hr hg hb with ⟨hres, _⟩ | ⟨i, j, hfit, _, hres⟩
    · obtain ⟨log, sf, hrun⟩ := ih' s hidx
      exact ⟨log, sf, CallSeq.rejected s s sf obj rest log hres hrun⟩
    · obtain ⟨log, sf, hrun⟩ := ih' (markRect s i j obj ⟨r, g, b⟩) hidx
      exact ⟨_, sf, CallSeq.placed s _ sf obj ⟨r, g, b⟩ i j rest log hres
        (placedAt_markRect s obj _ i j (by omega) (by omega) hfit) hrun⟩

/-- Along a run no occupied cell is cleared or recoloured. -/
theorem CallSeq.occupied_kept {s sf : State} {objs : List Object} {log : List Rect}
    (h : CallSeq s objs log sf) :
    ∀ a b : Fin 5, s.led_matrix a b ≠ 0 →
      sf.led_matrix a b ≠ 0 ∧ sf.led_colors a b = s.led_colors a b := by
  induction h with
  | done s => exact fun _ _ hocc => ⟨hocc, rfl⟩
  | recolor s sf objs log _ ih => exact fun a b hocc => ih a b hocc
  | rejected s s' sf obj objs log hcall _ ih =>
    have := placeObjectInMatrix_rejected_state s s' obj hcall
    subst this
    exact ih
  | placed s s' sf obj c i j objs log _ hplaced _ ih =>
    intro a b hocc
    obtain ⟨_, _, _, hin, hout⟩ := hplaced
    have hnot : ¬ inRect i j obj a b := fun hab => hocc (hin a b hab).1
    have hsame := hout a b hnot
    have := ih a b (by rw [hsame.1]; exact hocc)
    exact ⟨this.1, this.2.trans hsame.2⟩

/-- Along a run from `s`: the logged rectangles lie inside the grid, are
pairwise disjoint, cover only cells unoccupied in `s`, and together with the
cells occupied in `s` they are exactly the cells occupied at the end. -/
theorem CallSeq.disjoint_cover {s sf : State} {objs : List Object} {log : List Rect}
    (h : CallSeq s objs log sf) :
    (∀ r, r ∈ log → r.inGrid) ∧ log.Pairwise Rect.disjoint ∧
    (∀ r, r ∈ log → ∀ a b : Fin 5, r.covers a b → s.led_matrix a b = 0) ∧
    (∀ a b : Fin 5, sf.led_matrix a b ≠ 0 ↔
      (s.led_matrix a b ≠ 0 ∨ ∃ r, r ∈ log ∧ r.covers a b)) := by
  induction h with
  | done s =>
    refine ⟨fun r hr => absurd hr (List.not_mem_nil r), List.Pairwise.nil,
      fun r hr => absurd hr (List.not_mem_nil r), fun a b => ⟨Or.inl, fun h => ?_⟩⟩
    rcases h with h | ⟨r, hr, _⟩
    · exact h
    · exact absurd hr (List.not_mem_nil r)
  | recolor s sf objs log _ ih => exact ih
  | rejected s s' sf obj objs log hcall _ ih =>
    have := placeObjectInMatrix_rejected_state s s' obj hcall
    subst this
    exact ih
  | placed s s' sf obj c i j objs log _ hplaced _ ih =>
    obtain ⟨hgrid, hpair, hfree, hcover⟩ := ih
    obtain ⟨hi, hj, _, hin, hout⟩ := hplaced
    have hfree_s : ∀ r, r ∈ log → ∀ a b : Fin 5, r.covers a b → s.led_matrix a b = 0 := by
      intro r hr a b hab
      have hzero := hfree r hr a b hab
      by_cases hrect : inRect i j obj a b
      · exact absurd hzero (hin a b hrect).2.1
      · rw [← (hout a b hrect).1]; exact hzero
    refine ⟨?_, ?_, ?_, ?_⟩
    · intro r hr
      rcases List.mem_cons.mp hr with h | h
      · rw [h]; exact ⟨hi, hj⟩
      · exact hgrid r h
    · refine List.Pairwise.cons (fun r hr a b hab => ?_) hpair
      exact (hin a b hab.1).2.1 (hfree r hr a b hab.2)
    · intro r hr a b hab
      rcases List.mem_cons.mp hr with h | h
      · rw [h] at hab
        exact (hin a b hab).1
      · exact hfree_s r h a b hab
    · intro a b
      rw [hcover a b]
      constructor
      · rintro (hocc | ⟨r, hr, hab⟩)
        · by_cases hrect : inRect i j obj a b
          · exact Or.inr ⟨(i, j, obj), List.mem_cons_self _ _, hrect⟩
          · left
            rw [← (hout a b hrect).1]; exact hocc
        · exact Or.inr ⟨r, List.mem_cons_of_mem _ hr, hab⟩
      · rintro (hocc | ⟨r, hr, hab⟩)
        · left
          have hrect : ¬ inRect i j obj a b := fun hab => hocc (hin a b hab).1
          rw [(hout a b hrect).1]; exact hocc
        · rcases List.mem_cons.mp hr with h | h
          · left
            rw [h] at hab
            exact (hin a b hab).2.1
          · exact Or.inr ⟨r, h, hab⟩

/-- C14: grid invariant over every sequence of `placeObjectInMatrix` calls with
objects of width and height in `[1,5]`.  Every such sequence runs from the empty
grid; along a run a cell that is occupied is never cleared and its stored
colour never changes; a call that returns `1` is a placement on cells that were
all unoccupied; and in a run from the empty grid the rectangles of the
successful placements lie inside the grid, are pairwise disjoint, and their
union is exactly the set of occupied cells. -/
theorem placeObjectInMatrix_grid_invariant :
    (∀ objs : List Object,
      (∀ obj, obj ∈ objs → (1 ≤ obj.width ∧ obj.width ≤ 5) ∧
        (1 ≤ obj.height ∧ obj.height ≤ 5)) →
      ∃ log sf, CallSeq initState objs log sf) ∧
    (∀ (s sf : State) (objs : List Object) (log : List Rect), CallSeq s objs log sf →
      ∀ a b : Fin 5, s.led_matrix a b ≠ 0 →
        sf.led_matrix a b ≠ 0 ∧ sf.led_colors a b = s.led_colors a b) ∧
    (∀ (s s' : State) (obj : Object),
      (1 ≤ obj.width ∧ obj.width ≤ 5) ∧ (1 ≤ obj.height ∧ obj.height ≤ 5) →
      placeObjectInMatrix s obj = some (1, s') →
      ∃ (c : Color) (i j : Nat), placedAt s s' obj c i j ∧
        ∀ a b : Fin 5, inRect i j obj a b → s.led_matrix a b = 0) ∧
    (∀ (sf : State) (objs : List Object) (log : List Rect), CallSeq initState objs log sf →
      (∀ r, r ∈ log → r.inGrid) ∧ log.Pairwise Rect.disjoint ∧
      (∀ a b : Fin 5, sf.led_matrix a b ≠ 0 ↔ ∃ r, r ∈ log ∧ r.covers a b)) := by
  refine ⟨fun objs hdims => CallSeq.exists_run objs hdims initState (by decide),
    fun s sf objs log h => h.occupied_kept, ?_, ?_⟩
  · intro s s' obj hdims hcall
    obtain ⟨r, g, b, hr, hg, hb⟩ := placeObjectInMatrix_some_colors s obj _ hcall
    rcases placeObjectInMatrix_cases s obj r g b hr hg hb with ⟨hres, _⟩ | ⟨i, j, hfit, _, hres⟩
    · rw [hres] at hcall
      injection hcall with h1
      injection h1 with h2 _
      exact absurd h2 (by decide)
    · have hs' : s' = markRect s i j obj ⟨r, g, b⟩ := by
        rw [hres] at hcall
        injection hcall with h1
        injection h1 with _ h2
        exact h2.symm
      rw [hs']
      exact ⟨_, i, j, placedAt_markRect s obj _ i j (by omega) (by omega) hfit, hfit.2⟩
  · intro sf objs log h
    obtain ⟨hgrid, hpair, _, hcover⟩ := h.disjoint_cover
    refine ⟨hgrid, hpair, fun a b => ?_⟩
    rw [hcover a b]
    constructor
    · rintro (h0 | h1)
      · exact absurd rfl h0
      · exact h1
    · exact Or.inr

/-- C14 for the objects of width and height `(2, 2)`, `(5, 5)` and `(3, 1)` on
the empty grid: the sequence has a run, and in every run of it the logged
rectangles are pairwise disjoint and cover exactly the occupied cells. -/
theorem placeObjectInMatrix_grid_invariant_witness :
    (∃ log sf, CallSeq initState [⟨2, 2⟩, ⟨5, 5⟩, ⟨3, 1⟩] log sf) ∧
    ∀ (sf : State) (log : List Rect), CallSeq initState [⟨2, 2⟩, ⟨5, 5⟩, ⟨3, 1⟩] log sf →
      (∀ r, r ∈ log → r.inGrid) ∧ log.Pairwise Rect.disjoint ∧
      (∀ a b : Fin 5, sf.led_matrix a b ≠ 0 ↔ ∃ r, r ∈ log ∧ r.covers a b) :=
  ⟨placeObjectInMatrix_grid_invariant.1 [⟨2, 2⟩, ⟨5, 5⟩, ⟨3, 1⟩] (by decide),
    fun sf log h => placeObjectInMatrix_grid_invariant.2.2.2 sf _ log h⟩

/-! ## Placements from the empty grid -/

theorem paletteColor_initState : paletteColor initState.current_color_index = some ⟨32, 32, 32⟩ :=
  rfl

/-- C15: end-to-end on the empty grid with palette index `0`.  For every width
and height in `[1,5]` the first call returns `1`, is a placement at the anchor
`(0, 0)` with `colors[0]`, and leaves exactly the cells of rows
`0..height-1` and columns `0..width-1` occupied and coloured `(32, 32, 32)`;
for width `2` and height `2` these are `4` cells; a following object of width
`5` and height `5` is then rejected and changes nothing, whether or not the
session has advanced the palette index in between. -/
theorem placeObjectInMatrix_empty_grid (obj : Object)
    (hw : 1 ≤ obj.width ∧ obj.width ≤ 5) (hh : 1 ≤ obj.height ∧ obj.height ≤ 5) :
    ∃ s' : State, placeObjectInMatrix initState obj = some (1, s') ∧
      placedAt initState s' obj ⟨32, 32, 32⟩ 0 0 ∧
      (∀ a b : Fin 5, s'.led_matrix a b =
        if (a.val : Int) < obj.height ∧ (b.val : Int) < obj.width then 1 else 0) ∧
      (∀ a b : Fin 5, s'.led_colors a b =
        if (a.val : Int) < obj.height ∧ (b.val : Int) < obj.width then ⟨32, 32, 32⟩
        else ⟨0, 0, 0⟩) ∧
      (obj = ⟨2, 2⟩ →
        (Finset.univ.filter (fun p : Fin 5 × Fin 5 => s'.led_matrix p.1 p.2 ≠ 0)).card = 4) ∧
      placeObjectInMatrix s' ⟨5, 5⟩ = some (0, s') ∧
      placeObjectInMatrix (changeObjectColor s') ⟨5, 5⟩ = some (0, changeObjectColor s') := by
  have hfit : fitsAt initState.led_matrix obj 0 0 :=
    ⟨⟨by simp only [Nat.cast_zero]; omega, by simp only [Nat.cast_zero]; omega⟩,
      fun _ _ _ => rfl⟩
  have hplace : placeObjectInMatrix initState obj =
      some (1, markRect initState 0 0 obj ⟨32, 32, 32⟩) :=
    placeObjectInMatrix_eq_of_first initState obj _ 0 0 (by decide) paletteColor_initState
      (by omega) (by omega) hfit (fun i' j' _ => by omega)
  have hcellm : ∀ a b : Fin 5, (markRect initState 0 0 obj ⟨32, 32, 32⟩).led_matrix a b =
      if (a.val : Int) < obj.height ∧ (b.val : Int) < obj.width then 1 else 0 := by
    intro a b
    simp only [markRect, inRect, initState]
    by_cases h : (a.val : Int) < obj.height ∧ (b.val : Int) < obj.width
    · rw [if_pos h, if_pos (by omega)]
    · rw [if_neg h, if_neg (by omega)]
  have hcellc : ∀ a b : Fin 5, (markRect initState 0 0 obj ⟨32, 32, 32⟩).led_colors a b =
      if (a.val : Int) < obj.height ∧ (b.val : Int) < obj.width then ⟨32, 32, 32⟩
      else ⟨0, 0, 0⟩ := by
    intro a b
    simp only [markRect, inRect, initState]
    by_cases h : (a.val : Int) < obj.height ∧ (b.val : Int) < obj.width
    · rw [if_pos h, if_pos (by omega)]
    · rw [if_neg h, if_neg (by omega)]
  have hnofit : ∀ i j, ¬ fitsAt (markRect initState 0 0 obj ⟨32, 32, 32⟩).led_matrix ⟨5, 5⟩ i j := by
    intro i j hf
    obtain ⟨⟨hi, hj⟩, hfree⟩ := hf
    simp only [] at hi hj
    have h00 := hfree 0 0 (by simp only [inRect, Fin.val_zero]; omega)
    rw [hcellm, if_pos (by simp only [Fin.val_zero, Nat.cast_zero]; omega)] at h00
    exact absurd h00 (by decide)
  have hreject : ∀ s : State, s.led_matrix = (markRect initState 0 0 obj ⟨32, 32, 32⟩).led_matrix →
      0 ≤ s.current_color_index ∧ s.current_color_index < 6 →
      placeObjectInMatrix s ⟨5, 5⟩ = some (0, s) := by
    intro s hs hidx
    obtain ⟨r, g, b, hr, hg, hb, _⟩ := readColors_inBounds _ hidx.1 hidx.2
    rcases placeObjectInMatrix_cases s ⟨5, 5⟩ r g b hr hg hb with ⟨hres, _⟩ | ⟨i, j, hf, _, _⟩
    · exact hres
    · rw [hs] at hf
      exact absurd hf (hnofit i j)
  refine ⟨_, hplace, placedAt_markRect initState obj _ 0 0 (by omega) (by omega) hfit,
    hcellm, hcellc, ?_,
    hreject _ rfl (by show (0 : Int) ≤ 0 ∧ (0 : Int) < 6; decide),
    hreject _ rfl (by show (0 : Int) ≤ Int.tmod (0 + 1) 5 ∧ Int.tmod (0 + 1) 5 < 6; decide)⟩
  intro h22
  subst h22
  have hset : Finset.univ.filter (fun p : Fin 5 × Fin 5 =>
      (markRect initState 0 0 ⟨2, 2⟩ ⟨32, 32, 32⟩).led_matrix p.1 p.2 ≠ 0) =
      Finset.univ.filter (fun p : Fin 5 × Fin 5 => inRect 0 0 ⟨2, 2⟩ p.1 p.2) := by
    apply Finset.filter_congr
    intro p _
    simp only [markRect, initState]
    by_cases h : inRect 0 0 ⟨2, 2⟩ p.1 p.2
    · simp [h]
    · simp [h]
  rw [hset]
  have := card_inRect 0 0 ⟨2, 2⟩ (by decide) (by decide) (by decide) (by decide)
  simp only [] at this
  exact_mod_cast this

/-- C15 for width `2` and height `2`. -/
theorem placeObjectInMatrix_empty_grid_witness :
    ∃ s' : State, placeObjectInMatrix initState ⟨2, 2⟩ = some (1, s') ∧
      placedAt initState s' ⟨2, 2⟩ ⟨32, 32, 32⟩ 0 0 ∧
      (Finset.univ.filter (fun p : Fin 5 × Fin 5 => s'.led_matrix p.1 p.2 ≠ 0)).card = 4 ∧
      placeObjectInMatrix s' ⟨5, 5⟩ = some (0, s') :=
  (placeObjectInMatrix_empty_grid ⟨2, 2⟩ (by decide) (by decide)).imp
    fun _ h => ⟨h.1, h.2.1, h.2.2.2.2.1 rfl, h.2.2.2.2.2.1⟩

/-! ## Status display -/

/-- What `drawStringOnDisplay` does guarantee: when both lines have at most 15
characters, a second call with the same lines makes no display call and leaves
the buffers unchanged. -/
theorem drawStringOnDisplay_short_lines_suppressed (str1 str2 : List Char)
    (cache : DisplayCache) (h1 : str1.length ≤ 15) (h2 : str2.length ≤ 15) :
    drawStringOnDisplay str1 str2 (drawStringOnDisplay str1 str2 cache).2 =
      ([], (drawStringOnDisplay str1 str2 cache).2) := by
  have hcache : (drawStringOnDisplay str1 str2 cache).2 = ⟨str1, str2⟩ ∨
      ((drawStringOnDisplay str1 str2 cache).2 = cache ∧
        str1 = cache.last_str1 ∧ str2 = cache.last_str2) := by
    by_cases hne : str1 ≠ cache.last_str1 ∨ str2 ≠ cache.last_str2
    · left
      simp only [drawStringOnDisplay, if_pos hne, snprintfString]
      rw [List.take_of_length_le (by simpa using h1), List.take_of_length_le (by simpa using h2)]
    · right
      refine ⟨by simp only [drawStringOnDisplay, if_neg hne], ?_⟩
      exact ⟨by_contra fun h => hne (Or.inl h), by_contra fun h => hne (Or.inr h)⟩
  rcases hcache with h | ⟨h, e1, e2⟩
  · rw [h]
    simp only [drawStringOnDisplay]
    rw [if_neg (by simp)]
  · rw [h]
    simp only [drawStringOnDisplay]
    rw [if_neg (by simp [e1, e2])]

/-- C16, evaluated: from the initial buffers, two calls in a row with the lines
`"Aperte B e defina"` (17 characters) and `"largura: 0"`, as the width loop of
`main` makes them.  The first call leaves `"Aperte B e defi"` in the first
buffer, so the second call finds the first line different from the buffer and
clears, draws and shows again; hence it is not the case that a repeated call
makes no display call for lines of every length. -/
theorem drawStringOnDisplay_long_line_redrawn :
    (drawStringOnDisplay "Aperte B e defina".toList "largura: 0".toList initDisplayCache).2 =
      ⟨"Aperte B e defi".toList, "largura: 0".toList⟩ ∧
    drawStringOnDisplay "Aperte B e defina".toList "largura: 0".toList
        (drawStringOnDisplay "Aperte B e defina".toList "largura: 0".toList
          initDisplayCache).2 =
      ([DisplayCall.ssd1306_clear,
        DisplayCall.ssd1306_draw_string 0 0 1 "Aperte B e defina".toList,
        DisplayCall.ssd1306_draw_string 0 10 1 "largura: 0".toList,
        DisplayCall.ssd1306_show],
       ⟨"Aperte B e defi".toList, "largura: 0".toList⟩) ∧
    ¬ ∀ (str1 str2 : List Char) (cache : DisplayCache),
        drawStringOnDisplay str1 str2 (drawStringOnDisplay str1 str2 cache).2 =
          ([], (drawStringOnDisplay str1 str2 cache).2) := by
  have hsecond : drawStringOnDisplay "Aperte B e defina".toList "largura: 0".toList
        (drawStringOnDisplay "Aperte B e defina".toList "largura: 0".toList
          initDisplayCache).2 =
      ([DisplayCall.ssd1306_clear,
        DisplayCall.ssd1306_draw_string 0 0 1 "Aperte B e defina".toList,
        DisplayCall.ssd1306_draw_string 0 10 1 "largura: 0".toList,
        DisplayCall.ssd1306_show],
       ⟨"Aperte B e defi".toList, "largura: 0".toList⟩) := by decide
  refine ⟨by decide, hsecond, fun hall => ?_⟩
  have := (hall "Aperte B e defina".toList "largura: 0".toList initDisplayCache).symm.trans hsecond
  exact absurd (congrArg Prod.fst this) (by decide)

/-! ## Greedy placement -/

/-- C17: the placement is greedy and not an optimal packer.  There is a
sequence of objects with width and height in `[1,5]` which, fed to
`placeObjectInMatrix` in order from the empty grid, has every call but the last
return `1` and the last return `0`, although all of them can be arranged as
pairwise disjoint unrotated rectangles inside the grid; two objects of width
`1` and height `1` followed by an object of width `4` and height `5` are such
a sequence. -/
theorem placeObjectInMatrix_not_optimal :
    callReturns initState [⟨1, 1⟩, ⟨1, 1⟩, ⟨4, 5⟩] = some [1, 1, 0] ∧
    ∃ (objs : List Object) (rects : List Rect),
      (∀ obj, obj ∈ objs →
        (1 ≤ obj.width ∧ obj.width ≤ 5) ∧ (1 ≤ obj.height ∧ obj.height ≤ 5)) ∧
      callReturns initState objs = some (List.replicate (objs.length - 1) 1 ++ [0]) ∧
      rects.map (fun r => r.2.2) = objs ∧
      (∀ r, r ∈ rects → r.inGrid) ∧
      rects.Pairwise Rect.disjoint := by
  have hrun : callReturns initState [⟨1, 1⟩, ⟨1, 1⟩, ⟨4, 5⟩] = some [1, 1, 0] := by decide
  refine ⟨hrun, [⟨1, 1⟩, ⟨1, 1⟩, ⟨4, 5⟩], [(0, 0, ⟨1, 1⟩), (1, 0, ⟨1, 1⟩), (0, 1, ⟨4, 5⟩)],
    by decide, hrun, rfl, by decide, by decide⟩

/-! ## Zero-sized objects -/

theorem markRect_empty (s : State) (i j : Nat) (obj : Object) (c : Color)
    (h : obj.width ≤ 0 ∨ obj.height ≤ 0) : markRect s i j obj c = s := by
  ext a b
  · simp only [markRect]
    rw [if_neg (by simp only [inRect]; omega)]
  · simp only [markRect]
    rw [if_neg (by simp only [inRect]; omega)]
  · rfl

/-- C18: zero-sized objects are accepted vacuously.  For every grid and every
object with width `0` or height `0` and the other dimension in `0..5`,
`placeObjectInMatrix` returns `1` and leaves every cell's occupancy and colour
(the whole state) as it was; the Place step of the session then still advances
the palette index, to `(index + 1) mod 5`. -/
theorem placeObjectInMatrix_zero_sized (s : State) (obj : Object)
    (hidx : 0 ≤ s.current_color_index ∧ s.current_color_index < 6)
    (hdim : (obj.width = 0 ∧ 0 ≤ obj.height ∧ obj.height ≤ 5) ∨
      (obj.height = 0 ∧ 0 ≤ obj.width ∧ obj.width ≤ 5)) :
    placeObjectInMatrix s obj = some (1, s) ∧
    placeStep s obj = some (1, changeObjectColor s) ∧
    (changeObjectColor s).current_color_index = (s.current_color_index + 1) % 5 := by
  obtain ⟨r, g, b, hr, hg, hb, _⟩ := readColors_inBounds _ hidx.1 hidx.2
  have hplace : placeObjectInMatrix s obj = some (1, s) := by
    rcases placeObjectInMatrix_cases s obj r g b hr hg hb with ⟨_, hno⟩ | ⟨i, j, _, _, hres⟩
    · exfalso
      refine hno 0 0 ⟨⟨by simp only [Nat.cast_zero]; omega, by simp only [Nat.cast_zero]; omega⟩,
        fun a b hab => ?_⟩
      simp only [inRect] at hab
      omega
    · rw [hres, markRect_empty s i j obj _ (by omega)]
  refine ⟨hplace, ?_, changeObjectColor_index s hidx.1⟩
  simp only [placeStep, hplace]
  rfl

/-- C18 on the full grid, for an object of width `0` and height `3`. -/
theorem placeObjectInMatrix_zero_sized_witness :
    placeObjectInMatrix fullState ⟨0, 3⟩ = some (1, fullState) ∧
    placeStep fullState ⟨0, 3⟩ = some (1, changeObjectColor fullState) ∧
    (changeObjectColor fullState).current_color_index = 2 :=
  have h := placeObjectInMatrix_zero_sized fullState ⟨0, 3⟩ (by decide) (by decide)
  ⟨h.1, h.2.1, h.2.2.trans (by decide)⟩

/-! ## Index safety -/

/-- C19: index safety of the placement scan.  For every grid and every object
with width and height in `0..5`: at every anchor `(i, j)` that the scan of
`placeObjectInMatrix` visits, every cell `(i + k, j + l)` that
`isSpaceAvailable` reads and that the marking loops write has row and column
in `0..4`, neither of them takes the out-of-bounds branch, and the call as a
whole returns a value. -/
theorem placeObjectInMatrix_index_safe (s : State) (obj : Object)
    (hw : 0 ≤ obj.width ∧ obj.width ≤ 5) (hh : 0 ≤ obj.height ∧ obj.height ≤ 5)
    (hidx : 0 ≤ s.current_color_index ∧ s.current_color_index < 6) :
    (∀ i j : Nat, i ∈ leRange (MATRIX_SIZE - obj.height) →
      j ∈ leRange (MATRIX_SIZE - obj.width) →
      (∀ k l : Nat, k ∈ ltRange obj.height → l ∈ ltRange obj.width →
        i + k ≤ 4 ∧ j + l ≤ 4 ∧
        (readCell s.led_matrix (i + k) (j + l)).isSome ∧
        (∀ (t : State) (v : Int) (c : Color),
          (writeCell t.led_matrix (i + k) (j + l) v).isSome ∧
          (writeCell t.led_colors (i + k) (j + l) c).isSome)) ∧
      (isSpaceAvailable s.led_matrix i j obj).isSome ∧
      (∀ (t : State) (r g b : Int), (markObject t i j obj r g b).isSome)) ∧
    (placeObjectInMatrix s obj).isSome := by
  refine ⟨fun i j hi hj => ?_, ?_⟩
  · simp only [leRange, List.mem_range, MATRIX_SIZE] at hi hj
    have hi' : (i : Int) + obj.height ≤ 5 := by omega
    have hj' : (j : Int) + obj.width ≤ 5 := by omega
    refine ⟨fun k l hk hl => ?_, ?_, fun t r g b => ?_⟩
    · simp only [ltRange, List.mem_range] at hk hl
      have hr : i + k < 5 := by omega
      have hc : j + l < 5 := by omega
      refine ⟨by omega, by omega, ?_, fun t v c => ?_⟩
      · rw [readCell_inBounds _ hr hc]
        rfl
      · simp only [writeCell, hr, hc, and_self, if_true, Option.isSome_some]
    · rw [isSpaceAvailable_spec _ i j obj hi' hj']
      rfl
    · rw [markObject_spec t i j obj r g b hi' hj']
      rfl
  · obtain ⟨r, g, b, hr, hg, hb, _⟩ := readColors_inBounds _ hidx.1 hidx.2
    rcases placeObjectInMatrix_cases s obj r g b hr hg hb with ⟨hres, _⟩ | ⟨_, _, _, _, hres⟩
    · rw [hres]; rfl
    · rw [hres]; rfl

/-- C19 on the grid whose first two rows are occupied, for an object of width
`3` and height `2`. -/
theorem placeObjectInMatrix_index_safe_witness :
    (placeObjectInMatrix twoRowsState ⟨3, 2⟩).isSome ∧
    (isSpaceAvailable twoRowsState.led_matrix 3 2 ⟨3, 2⟩).isSome :=
  have h := placeObjectInMatrix_index_safe twoRowsState ⟨3, 2⟩ (by decide) (by decide)
    (by decide)
  ⟨h.2, (h.1 3 2 (by decide) (by decide)).2.1⟩

/-! ## Palette invariant -/

/-- The first five entries of `colors`, with each component in `0..32`; the
sixth entry is not among them. -/
theorem paletteColor_first_five (idx : Int) (h0 : 0 ≤ idx) (h5 : idx < 5) (c : Color)
    (hc : paletteColor idx = some c) :
    (0 ≤ c.r ∧ c.r ≤ 32) ∧ (0 ≤ c.g ∧ c.g ≤ 32) ∧ (0 ≤ c.b ∧ c.b ≤ 32) ∧
      c ≠ ⟨0, 32, 32⟩ ∧ c ≠ ⟨0, 0, 0⟩ := by
  interval_cases idx <;>
    · have := Option.some.inj hc
      subst this
      decide

/-- C20: palette invariant.  In every state reachable from the initial state by
Place steps, `current_color_index` lies in `0..4`, every unoccupied cell's
stored colour is `(0, 0, 0)`, and every occupied cell's stored colour is one of
the first five entries of `colors`, with each component in `0..32`; the sixth
entry `(0, 32, 32)` is the stored colour of no cell. -/
theorem Reachable.palette_invariant (s : State) (hs : Reachable s) :
    (0 ≤ s.current_color_index ∧ s.current_color_index ≤ 4) ∧
    (∀ a b : Fin 5, s.led_matrix a b = 0 → s.led_colors a b = ⟨0, 0, 0⟩) ∧
    (∀ a b : Fin 5, s.led_matrix a b ≠ 0 →
      (∃ k : Int, 0 ≤ k ∧ k ≤ 4 ∧ paletteColor k = some (s.led_colors a b)) ∧
      (0 ≤ (s.led_colors a b).r ∧ (s.led_colors a b).r ≤ 32) ∧
      (0 ≤ (s.led_colors a b).g ∧ (s.led_colors a b).g ≤ 32) ∧
      (0 ≤ (s.led_colors a b).b ∧ (s.led_colors a b).b ≤ 32)) ∧
    (paletteColor 5 = some ⟨0, 32, 32⟩ ∧ ∀ a b : Fin 5, s.led_colors a b ≠ ⟨0, 32, 32⟩) := by
  have hidx := hs.cells_and_index.2
  have key : (∀ a b : Fin 5, s.led_matrix a b = 0 → s.led_colors a b = ⟨0, 0, 0⟩) ∧
      (∀ a b : Fin 5, s.led_matrix a b ≠ 0 →
        ∃ k : Int, 0 ≤ k ∧ k ≤ 4 ∧ paletteColor k = some (s.led_colors a b)) := by
    induction hs with
    | init => exact ⟨fun _ _ _ => rfl, fun _ _ h => absurd rfl h⟩
    | step s s' obj ret hreach hstep ih =>
      obtain ⟨_, h0, h5⟩ := hreach.cells_and_index
      obtain ⟨ihfree, ihocc⟩ := ih ⟨h0, h5⟩
      rcases placeStep_cases s obj ⟨h0, by omega⟩ with ⟨hres, _⟩ | ⟨c, i, j, hc, hfit, hres⟩
      · have : s' = s := by
          rw [hres] at hstep
          injection hstep with h1
          injection h1 with _ h2
          exact h2.symm
        rw [this]
        exact ⟨ihfree, ihocc⟩
      · have : s' = changeObjectColor (markRect s i j obj c) := by
          rw [hres] at hstep
          injection hstep with h1
          injection h1 with _ h2
          exact h2.symm
        rw [this]
        refine ⟨fun a b hzero => ?_, fun a b hocc => ?_⟩
        · simp only [changeObjectColor, markRect] at hzero ⊢
          by_cases hin : inRect i j obj a b
          · rw [if_pos hin] at hzero
            exact absurd hzero (by decide)
          · rw [if_neg hin] at hzero
            rw [if_neg hin]
            exact ihfree a b hzero
        · simp only [changeObjectColor, markRect] at hocc ⊢
          by_cases hin : inRect i j obj a b
          · rw [if_pos hin]
            exact ⟨s.current_color_index, h0, by omega, hc⟩
          · rw [if_neg hin] at hocc
            rw [if_neg hin]
            exact ihocc a b hocc
  obtain ⟨hfree, hocc⟩ := key
  refine ⟨⟨hidx.1, by omega⟩, hfree, fun a b h => ?_, rfl, fun a b => ?_⟩
  · obtain ⟨k, hk0, hk4, hk⟩ := hocc a b h
    have := paletteColor_first_five k hk0 (by omega) _ hk
    exact ⟨⟨k, hk0, hk4, hk⟩, this.1, this.2.1, this.2.2.1⟩
  · by_cases h : s.led_matrix a b = 0
    · rw [hfree a b h]
      decide
    · obtain ⟨k, hk0, hk4, hk⟩ := hocc a b h
      exact (paletteColor_first_five k hk0 (by omega) _ hk).2.2.2.1

/-- C20 in the state reached by placing an object of width `2` and height `1`
on the empty grid: the palette index is `1` and the cell `(0, 1)` is occupied. -/
theorem Reachable.palette_invariant_witness :
    ∃ s : State, Reachable s ∧ s.current_color_index = 1 ∧ s.led_matrix 0 1 ≠ 0 ∧
      (0 ≤ s.current_color_index ∧ s.current_color_index ≤ 4) ∧
      (∀ a b : Fin 5, s.led_matrix a b = 0 → s.led_colors a b = ⟨0, 0, 0⟩) ∧
      (∀ a b : Fin 5, s.led_matrix a b ≠ 0 →
        (∃ k : Int, 0 ≤ k ∧ k ≤ 4 ∧ paletteColor k = some (s.led_colors a b)) ∧
        (0 ≤ (s.led_colors a b).r ∧ (s.led_colors a b).r ≤ 32) ∧
        (0 ≤ (s.led_colors a b).g ∧ (s.led_colors a b).g ≤ 32) ∧
        (0 ≤ (s.led_colors a b).b ∧ (s.led_colors a b).b ≤ 32)) ∧
      (paletteColor 5 = some ⟨0, 32, 32⟩ ∧ ∀ a b : Fin 5, s.led_colors a b ≠ ⟨0, 32, 32⟩) :=
  have hreach : Reachable (changeObjectColor (markRect initState 0 0 ⟨2, 1⟩ ⟨32, 32, 32⟩)) :=
    Reachable.step initState _ ⟨2, 1⟩ 1 Reachable.init
      (placeStep_eq_of_first _ _ _ _ _ (by decide) (by decide) (by decide) (by decide)
        (by decide) (by decide))
  ⟨_, hreach, by decide, by decide, Reachable.palette_invariant _ hreach⟩

end BoxSystem
